import Mathlib

/-!
Verification of the pymonome core (`monome.py`) against its specification.

The Python source is shallowly embedded: machine integers are `Int`,
Python lists are `List`, Python's negative-index semantics are made
explicit (`normIdx`, `pySliceTo`, `pyGet`) and code that can raise an
exception returns `Except`/`Option`.
-/

namespace Pymonome

/-- Python sequence index normalisation for a sequence of length `n`:
`a[i]` uses index `i` when `0 ≤ i < n`, index `n + i` when `-n ≤ i < 0`,
and raises `IndexError` (here: `none`) otherwise. -/
def normIdx (n : Nat) (i : Int) : Option Nat :=
  if 0 ≤ i then
    (if i < (n : Int) then some i.toNat else none)
  else
    (if 0 ≤ (n : Int) + i then some ((n : Int) + i).toNat else none)

/-- Python slice `l[:stop]` (never raises): a negative `stop` counts from
the end; the result is clipped to the available elements. -/
def pySliceTo (l : List α) (stop : Int) : List α :=
  if stop < 0 then l.take ((l.length + stop : Int)).toNat else l.take stop.toNat

/-- Python sequence read `l[i]`, `none` on `IndexError`. -/
def pyGet (l : List α) (i : Int) : Option α :=
  (normIdx l.length i).bind (fun k => l[k]?)

/-- Source `GridBuffer` (spec name: LedSurface): `width × height` grid of stored
LED levels, from `GridBuffer.__init__`.  `levels r c` is row `r`, column
`c` (the source's `levels[y][x]`); only indices `r < height`, `c < width`
are meaningful. -/
structure GridBuffer where
  width : Nat
  height : Nat
  levels : Nat → Nat → Int

/-- Source `GridBuffer.__init__`: all levels start at 0. -/
def GridBuffer.init (width height : Nat) : GridBuffer :=
  ⟨width, height, fun _ _ => 0⟩

/-- Store level `l` at row `r`, column `c` (already-normalised
indices). -/
def setLevel (b : GridBuffer) (r c : Nat) (l : Int) : GridBuffer :=
  { b with levels := fun r' c' => if r' = r ∧ c' = c then l else b.levels r' c' }

/-- One Python statement `self.levels[y][x] = l` with both indices given
as Python ints: negative indices wrap per `normIdx`; an out-of-range
index raises (`Except.error` carrying the unmodified buffer). -/
def writeCell (b : GridBuffer) (y x l : Int) : Except GridBuffer GridBuffer :=
  match normIdx b.height y, normIdx b.width x with
  | some r, some c => .ok (setLevel b r c l)
  | _, _ => .error b

/-- A sequence of raw cell writes `(y, x, level)`, the elementary effect
of every `GridBuffer` LED method. -/
abbrev Script := List (Int × Int × Int)

/-- Run the writes in order; an `IndexError` aborts the rest, keeping the
mutations already performed (Python exception semantics). -/
def runScript (b : GridBuffer) : Script → Except GridBuffer GridBuffer
  | [] => .ok b
  | (y, x, l) :: rest =>
      match writeCell b y x l with
      | .ok b' => runScript b' rest
      | .error b' => .error b'

/-- Source `for x, l in enumerate(data): levels[y][x + x0] = l` — writes a row
left to right starting at column `x0`. -/
def rowScriptAux (y : Int) : Int → List Int → Script
  | _, [] => []
  | x, l :: ls => (y, x, l) :: rowScriptAux y (x + 1) ls

/-- Source `for y, l in enumerate(data): levels[y + y0][x] = l` — writes a
column top to bottom starting at row `y0`. -/
def colScriptAux (x : Int) : Int → List Int → Script
  | _, [] => []
  | y, l :: ls => (y, x, l) :: colScriptAux x (y + 1) ls

/-- Source `GridBuffer.led_level_set`: guarded by `x < width and y < height`
(upper bounds only), then one cell write. -/
def levelSetScript (w h : Nat) (x y l : Int) : Script :=
  if x < (w : Int) ∧ y < (h : Int) then [(y, x, l)] else []

/-- Source `GridBuffer.led_level_all`: `for x in range(width): for y in
range(height): levels[y][x] = l`. -/
def levelAllScript (w h : Nat) (l : Int) : Script :=
  (List.range w).foldr
    (fun x acc => ((List.range h).map (fun y => ((y : Int), (x : Int), l))) ++ acc) []

/-- Source `GridBuffer.led_level_row`: guarded by `y < height`; the data is
sliced to `data[:width - x_offset]` and written from `x_offset` on. -/
def levelRowScript (w h : Nat) (xo y : Int) (data : List Int) : Script :=
  if y < (h : Int) then rowScriptAux y xo (pySliceTo data ((w : Int) - xo)) else []

/-- Source `GridBuffer.led_level_col`: guarded by `x < width`; the data is
sliced to `data[:height - y_offset]` and written from `y_offset` down. -/
def levelColScript (w h : Nat) (x yo : Int) (data : List Int) : Script :=
  if x < (w : Int) then colScriptAux x yo (pySliceTo data ((h : Int) - yo)) else []

/-- Source `GridBuffer.led_level_map`: one `led_level_row` per data row,
at `y_offset + r`. -/
def levelMapAux (w h : Nat) (xo : Int) : Int → List (List Int) → Script
  | _, [] => []
  | y, row :: rows => levelRowScript w h xo y row ++ levelMapAux w h xo (y + 1) rows

def levelMapScript (w h : Nat) (xo yo : Int) (data : List (List Int)) : Script :=
  levelMapAux w h xo yo data

/-- Source `GridBuffer.led_set(x, y, s)` = `led_level_set(x, y, s * 15)`. -/
def setScript (w h : Nat) (x y s : Int) : Script :=
  levelSetScript w h x y (s * 15)

/-- Source `GridBuffer.led_all(s)` = `led_level_all(s * 15)`. -/
def allScript (w h : Nat) (s : Int) : Script :=
  levelAllScript w h (s * 15)

/-- Source `GridBuffer.led_row`: `for x, s in enumerate(data):
led_set(x_offset + x, y, s)` — each element gets its own bounds guard. -/
def binRowAux (w h : Nat) (y : Int) : Int → List Int → Script
  | _, [] => []
  | x, s :: ss => setScript w h x y s ++ binRowAux w h y (x + 1) ss

def rowScript (w h : Nat) (xo y : Int) (data : List Int) : Script :=
  binRowAux w h y xo data

/-- Source `GridBuffer.led_col`: `for y, s in enumerate(data):
led_set(x, y_offset + y, s)`. -/
def binColAux (w h : Nat) (x : Int) : Int → List Int → Script
  | _, [] => []
  | y, s :: ss => setScript w h x y s ++ binColAux w h x (y + 1) ss

def colScript (w h : Nat) (x yo : Int) (data : List Int) : Script :=
  binColAux w h x yo data

/-- Source `GridBuffer.led_map`: one `led_row` per data row, at `y_offset + r`. -/
def mapAux (w h : Nat) (xo : Int) : Int → List (List Int) → Script
  | _, [] => []
  | y, row :: rows => rowScript w h xo y row ++ mapAux w h xo (y + 1) rows

def mapScript (w h : Nat) (xo yo : Int) (data : List (List Int)) : Script :=
  mapAux w h xo yo data

/-- The LED command vocabulary shared by `Grid`, `GridBuffer`, `Page` and
`Section` (the eleven `led_*` methods). -/
inductive LedOp where
  | set (x y s : Int)
  | all (s : Int)
  | map (xo yo : Int) (data : List (List Int))
  | row (xo y : Int) (data : List Int)
  | col (x yo : Int) (data : List Int)
  | levelSet (x y l : Int)
  | levelAll (l : Int)
  | levelMap (xo yo : Int) (data : List (List Int))
  | levelRow (xo y : Int) (data : List Int)
  | levelCol (x yo : Int) (data : List Int)
  | intensity (i : Int)
  deriving DecidableEq

/-- The cell writes performed by each `GridBuffer` LED method on a buffer
of the given dimensions (`led_intensity` does not exist on `GridBuffer`
and touches no cell). -/
def opScript (w h : Nat) : LedOp → Script
  | .set x y s => setScript w h x y s
  | .all s => allScript w h s
  | .map xo yo data => mapScript w h xo yo data
  | .row xo y data => rowScript w h xo y data
  | .col x yo data => colScript w h x yo data
  | .levelSet x y l => levelSetScript w h x y l
  | .levelAll l => levelAllScript w h l
  | .levelMap xo yo data => levelMapScript w h xo yo data
  | .levelRow xo y data => levelRowScript w h xo y data
  | .levelCol x yo data => levelColScript w h x yo data
  | .intensity _ => []

/-- Apply one `GridBuffer` LED method. -/
def applyOp (b : GridBuffer) (op : LedOp) : Except GridBuffer GridBuffer :=
  runScript b (opScript b.width b.height op)

/-- Apply a sequence of `GridBuffer` LED methods; an exception aborts the
remaining calls. -/
def applyOps (b : GridBuffer) : List LedOp → Except GridBuffer GridBuffer
  | [] => .ok b
  | op :: ops =>
      match applyOp b op with
      | .ok b' => applyOps b' ops
      | .error e => .error e

/-- The buffer contents whether or not an exception was raised (a Python
exception leaves the object with the mutations made so far). -/
def resBuf (e : Except GridBuffer GridBuffer) : GridBuffer :=
  match e with
  | .ok b => b
  | .error b => b

def Except.isOkB (e : Except α β) : Bool :=
  match e with
  | .ok _ => true
  | .error _ => false

/-! ### Grid connection machinery (`Grid`, spec name GridLink) -/

/-- Source `DISCONNECTED, CONNECTING, READY = range(3)`. -/
inductive ConnState where
  | disconnected
  | connecting
  | ready
  deriving DecidableEq

/-- The listener callbacks named in the source: `on_grid_ready`
(`Grid.__ready`, `GridWrapper.on_grid_ready`) and `on_grid_disconnect`
(`GridWrapper.on_grid_disconnect`, `App.on_grid_disconnect`). -/
inductive ListenerCall where
  | onGridReady
  | onGridDisconnect
  deriving DecidableEq

/-- The connection-relevant state of a `Grid`: `self.state`, whether the
local transport endpoint is open, and whether `self.event_handler` is
attached. -/
structure GridConn where
  st : ConnState
  transportOpen : Bool
  hasListener : Bool
  deriving DecidableEq

/-- The body of `Grid.__sys_disconnect` (lines 72-77): sets
`state = DISCONNECTED`, closes the transport, and — as written in the
source — calls `self.event_handler.on_grid_ready()` (not
`on_grid_disconnect`) when a listener is attached. -/
def sysDisconnectMethod (g : GridConn) : GridConn × List ListenerCall :=
  (⟨.disconnected, false, g.hasListener⟩,
   if g.hasListener then [.onGridReady] else [])

/-- What actually runs when a `/sys/disconnect` datagram arrives: the
registered handler is `lambda *args: self.__sys_disconnect` (line 46),
whose body merely *evaluates* the bound method and returns it without
calling it.  No state changes and no listener call occur. -/
def dispatchSysDisconnect (g : GridConn) : GridConn × List ListenerCall :=
  (g, [])

/-! ### `GridBuffer.__and__ / __xor__ / __or__` (C3) -/

/-- Python exceptions distinguished by the combine methods. -/
inductive PyErr where
  | nameErrorLedBuffer
  deriving DecidableEq

/-- Source `GridBuffer.__and__`: its first statement is
`result = LedBuffer(self.width, self.height)`, but no class named
`LedBuffer` is defined anywhere in the module (the only buffer class is
`GridBuffer`), so every invocation raises `NameError` before any
dimension check or element is evaluated. -/
def combineAnd (_a _b : GridBuffer) : Except PyErr GridBuffer :=
  .error .nameErrorLedBuffer

/-- Source `GridBuffer.__xor__`: same undefined `LedBuffer` reference. -/
def combineXor (_a _b : GridBuffer) : Except PyErr GridBuffer :=
  .error .nameErrorLedBuffer

/-- Source `GridBuffer.__or__`: same undefined `LedBuffer` reference. -/
def combineOr (_a _b : GridBuffer) : Except PyErr GridBuffer :=
  .error .nameErrorLedBuffer

/-! ### `pack_row` (C9) -/

/-- Source `pack_row(row)` = `row[7] << 7 | row[6] << 6 | ... | row[0]`.
Modelled for rows of length at least 8 (shorter rows raise `IndexError`
in Python; every caller and every claim uses exactly 8 elements). -/
def packRow (row : List Nat) : Nat :=
  row.getD 7 0 <<< 7 ||| row.getD 6 0 <<< 6 ||| row.getD 5 0 <<< 5 |||
  row.getD 4 0 <<< 4 ||| row.getD 3 0 <<< 3 ||| row.getD 2 0 <<< 2 |||
  row.getD 1 0 <<< 1 ||| row.getD 0 0

/-- The decode matching the spec's bit ordering: bit `i` of the packed
byte is column `i` of the row. -/
def unpackRow (n : Nat) : List Nat :=
  (List.range 8).map (fun i => n >>> i &&& 1)

/-! ### `Page`, the device, and `render` (C6) -/

/-- Source `GridBuffer.get_level_map(x_offset, y_offset)`: the 8×8 block of
levels at the given offsets (rows outermost, matching
`levels[y][col]`).  `render` only calls it with in-range offsets. -/
def getLevelMap (b : GridBuffer) (xo yo : Nat) : List (List Int) :=
  (List.range 8).map (fun r => (List.range 8).map (fun c => b.levels (yo + r) (xo + c)))

/-- The `(x_offset, y_offset)` pairs visited by `GridBuffer.render`:
`[i * 8 for i in range(width // 8)]` crossed with the same for height,
x outermost. -/
def tileOffsets (w h : Nat) : List (Nat × Nat) :=
  (List.range (w / 8)).foldr
    (fun i acc => ((List.range (h / 8)).map (fun j => (8 * i, 8 * j))) ++ acc) []

/-- Source `GridBuffer.render(grid)`: one `led_level_map` command per 8×8 tile
covering the buffer. -/
def renderCmds (b : GridBuffer) : List LedOp :=
  (tileOffsets b.width b.height).map
    (fun t => LedOp.levelMap (t.1 : Int) (t.2 : Int) (getLevelMap b t.1 t.2))

/-- A `Page`: private shadow buffer (`self.__buffer`) plus the intensity
scalar (`self.__intensity`, initially 15).  The source allocates the
buffer in `Page.ready()` as `LedBuffer(self.width, self.height)`;
`LedBuffer` is the undefined name reported with C3 — the only buffer
class in the module is `GridBuffer`, which is what it denotes here. -/
structure Page where
  buffer : GridBuffer
  intensity : Int

/-- A freshly readied page for a `width × height` device. -/
def Page.mk0 (w h : Nat) : Page :=
  ⟨GridBuffer.init w h, 15⟩

/-- One `Page.led_*` call: the private buffer is updated first,
unconditionally; then, only if the page is the manager's current page
(`active`), the identical command is forwarded to the manager's device.
A buffer exception propagates before the forward happens. -/
def pageStep (active : Bool) (p : Page) (op : LedOp) :
    Except Page (Page × List LedOp) :=
  match op with
  | .intensity i => .ok ({ p with intensity := i }, if active then [op] else [])
  | _ =>
      match applyOp p.buffer op with
      | .ok b => .ok ({ p with buffer := b }, if active then [op] else [])
      | .error b => .error { p with buffer := b }

/-- A sequence of `Page.led_*` calls, collecting the forwarded
commands. -/
def pageSteps (active : Bool) (p : Page) : List LedOp → Except Page (Page × List LedOp)
  | [] => .ok (p, [])
  | op :: ops =>
      match pageStep active p op with
      | .ok (p', cmds) =>
          match pageSteps active p' ops with
          | .ok (p'', rest) => .ok (p'', cmds ++ rest)
          | .error e => .error e
      | .error e => .error e

/-- Source `Page.render()`: re-push the whole shadow buffer
(`GridBuffer.render`) followed by the stored intensity. -/
def pageRenderCmds (p : Page) : List LedOp :=
  renderCmds p.buffer ++ [LedOp.intensity p.intensity]

/-- Modelled from the spec: the physical grid device is not part of this
repository; per §4.2 the LedSurface is its cell-for-cell mirror, so the
device interprets each LED command exactly as `GridBuffer` does, plus a
global intensity scalar set by `led_intensity`. -/
structure Device where
  surf : GridBuffer
  intensity : Int

/-- The intensity scalar after one command: `led_intensity` replaces it,
every other command leaves it. -/
def nextIntensity (op : LedOp) (i : Int) : Int :=
  match op with
  | .intensity j => j
  | _ => i

/-- Modelled from the spec: device interpretation of one LED command. -/
def deviceStep (d : Device) (op : LedOp) : Except Device Device :=
  match applyOp d.surf op with
  | .ok b => .ok ⟨b, nextIntensity op d.intensity⟩
  | .error b => .error ⟨b, nextIntensity op d.intensity⟩

/-- Modelled from the spec: device interpretation of a command list. -/
def deviceRun (d : Device) : List LedOp → Except Device Device
  | [] => .ok d
  | op :: ops =>
      match deviceStep d op with
      | .ok d' => deviceRun d' ops
      | .error e => .error e

/-! ### `Section` (C4) -/

/-- A `Section`: size `(pw, ph)` and offset `(ox, oy)` inside the
splitter's coordinate space. -/
structure Section where
  pw : Int
  ph : Int
  ox : Int
  oy : Int
  deriving DecidableEq

/-- What each `Section.led_*` method forwards to the underlying splitter
device: offsets are re-based by `(ox, oy)`; `led_row`/`led_col` (and the
level variants) slice their data to `part_width`/`part_height`;
`led_all` and `led_level_all` forward a full 8×8 `led_map` regardless of
the section's size (the source marks this `# TODO: fix map`);
`led_map`/`led_level_map` forward their data unclipped. -/
def sectionFwd (s : Section) : LedOp → List LedOp
  | .set x y v => if x < s.pw ∧ y < s.ph then [.set (x + s.ox) (y + s.oy) v] else []
  | .all v => [.map s.ox s.oy (List.replicate 8 (List.replicate 8 v))]
  | .map xo yo data => [.map (s.ox + xo) (s.oy + yo) data]
  | .row xo y data => [.row (s.ox + xo) (s.oy + y) (pySliceTo data s.pw)]
  | .col x yo data => [.col (s.ox + x) (s.oy + yo) (pySliceTo data s.ph)]
  | .levelSet x y l => if x < s.pw ∧ y < s.ph then [.levelSet (s.ox + x) (s.oy + y) l] else []
  | .levelAll l => [.map s.ox s.oy (List.replicate 8 (List.replicate 8 l))]
  | .levelMap xo yo data => [.levelMap (s.ox + xo) (s.oy + yo) data]
  | .levelRow xo y data => [.levelRow (s.ox + xo) (s.oy + y) (pySliceTo data s.pw)]
  | .levelCol x yo data => [.levelCol (s.ox + x) (s.oy + yo) (pySliceTo data s.ph)]
  | .intensity i => [.intensity i]

/-- Does the section's rectangle contain physical coordinate `(x, y)`?
(`Splitter.grid_key`'s test.) -/
def secContains (s : Section) (x y : Int) : Prop :=
  s.ox ≤ x ∧ x < s.ox + s.pw ∧ s.oy ≤ y ∧ y < s.oy + s.ph

instance (s : Section) (x y : Int) : Decidable (secContains s x y) := by
  unfold secContains; infer_instance

/-! ### `Splitter.grid_key` (C8) -/

/-- A key delivery: receiving section index, local x, local y, state. -/
abbrev SecDelivery := Nat × Int × Int × Int

/-- Source `Splitter.grid_key`: the loop visits every section in order and
delivers the translated event to *each* one whose rectangle contains the
coordinate (the source has no `break`). -/
def splitterKeyAux (x y v : Int) : Nat → List Section → List SecDelivery
  | _, [] => []
  | i, s :: rest =>
      (if secContains s x y then [(i, x - s.ox, y - s.oy, v)] else []) ++
      splitterKeyAux x y v (i + 1) rest

def splitterGridKey (sections : List Section) (x y v : Int) : List SecDelivery :=
  splitterKeyAux x y v 0 sections

/-! ### `BasePageManager` (C5) and `SeqPageManager` (C7) -/

/-- Pages are identified by the object identity the source compares with
`is` / looks up with `list.index`; any type with decidable equality
serves, `Nat` here. -/
abbrev PageId := Nat

/-- A key event delivered to a page: page, x, y, state. -/
abbrev KeyDelivery := PageId × Int × Int × Int

/-- Source `BasePageManager` state: the fixed page list, the current page
(`None` while the chooser owns the device), and `self._presses` —
a Python `set`, modelled as a duplicate-free list. -/
structure PM where
  pages : List PageId
  current : Option PageId
  presses : List (Int × Int)
  deriving DecidableEq

/-- Python `set.add`. -/
def pressAdd (l : List (Int × Int)) (q : Int × Int) : List (Int × Int) :=
  if q ∈ l then l else q :: l

/-- Source `BasePageManager.grid_key`: update the pressed-set, then route the
event to the current page (`AttributeError`, i.e. `none`, if the current
page is `None`). -/
def baseGridKey (st : PM) (x y v : Int) : Option (PM × List KeyDelivery) :=
  let ps := if v = 1 then pressAdd st.presses (x, y) else st.presses.erase (x, y)
  match st.current with
  | some c => some (⟨st.pages, some c, ps⟩, [(c, x, y, v)])
  | none => none

/-- The `for x, y in self._presses: self.current_page.grid_key(x, y, 0)`
loop of `switch_page`: raises (`none`) only when the current page is
`None` and there is something to release. -/
def sendReleases (cur : Option PageId) (ps : List (Int × Int)) :
    Option (List KeyDelivery) :=
  match cur with
  | some c => some (ps.map (fun q => (c, q.1, q.2, 0)))
  | none => if ps.isEmpty then some [] else none

/-- Source `BasePageManager.switch_page(page_num)`.  Release events are
synthesized to the outgoing page when the target is `-1` or a different
page; the pressed-set is then cleared.  Target `-1` blanks the device
(an LED command, not a key event) and sets current to `None`; otherwise
the target page becomes current and is re-rendered (again LED commands
only — `Page.render` delivers no key events).  The returned list holds
the key events delivered. -/
def switchPage (st : PM) (t : Int) : Option (PM × List KeyDelivery) :=
  if t = -1 then
    (sendReleases st.current st.presses).map
      (fun ds => (⟨st.pages, none, []⟩, ds))
  else
    match pyGet st.pages t with
    | none => none
    | some p =>
        if some p = st.current then
          some (⟨st.pages, some p, st.presses⟩, [])
        else
          (sendReleases st.current st.presses).map
            (fun ds => (⟨st.pages, some p, []⟩, ds))

/-- Source `SeqPageManager` state: the base manager plus the resolved switch
button coordinate (`self.switch_x`, `self.switch_y`). -/
structure SeqPM where
  base : PM
  sx : Int
  sy : Int
  deriving DecidableEq

/-- Source `SeqPageManager.__init__` + `ready()`: current page is `pages[0]`
(`IndexError` on an empty list), and a negative switch-button component
resolves to `width + sx` / `height + sy`. -/
def seqMk (pages : List PageId) (sb : Int × Int) (w h : Nat) : Option SeqPM :=
  (pyGet pages 0).map (fun p0 =>
    ⟨⟨pages, some p0, []⟩,
     if sb.1 < 0 then (w : Int) + sb.1 else sb.1,
     if sb.2 < 0 then (h : Int) + sb.2 else sb.2⟩)

/-- Python `list.index(c)`: index of the first occurrence, `ValueError`
(`none`) if absent. -/
def pyIndex (l : List PageId) (c : PageId) : Option Nat :=
  match l with
  | [] => none
  | a :: t => if a = c then some 0 else (pyIndex t c).map (· + 1)

/-- Source `SeqPageManager.grid_key`: a press on the switch button while
nothing else is pressed advances to `(pages.index(current) + 1) %
len(pages)`; every other event goes to `BasePageManager.grid_key`. -/
def seqGridKey (st : SeqPM) (x y v : Int) : Option (SeqPM × List KeyDelivery) :=
  if st.base.presses = [] ∧ x = st.sx ∧ y = st.sy ∧ v = 1 then
    match st.base.current with
    | none => none
    | some c =>
        match pyIndex st.base.pages c with
        | none => none
        | some i =>
            (switchPage st.base (((i + 1) % st.base.pages.length : Nat) : Int)).map
              (fun r => (⟨r.1, st.sx, st.sy⟩, r.2))
  else
    (baseGridKey st.base x y v).map (fun r => (⟨r.1, st.sx, st.sy⟩, r.2))

/-! ### Predicates and helper definitions used by the theorems -/

/-- Buffer invariant: predicate `P` holds at every in-range cell. -/
def InvOn (P : Int → Prop) (b : GridBuffer) : Prop :=
  ∀ r, r < b.height → ∀ c, c < b.width → P (b.levels r c)

/-- Two buffers with the same dimensions and the same level at every
in-range cell. -/
def Agree (b d : GridBuffer) : Prop :=
  b.width = d.width ∧ b.height = d.height ∧
    ∀ r, r < b.height → ∀ c, c < b.width → b.levels r c = d.levels r c

/-- A cell lies inside the 8×8 tile at offset `t`. -/
def inTile (t : Nat × Nat) (r c : Nat) : Prop :=
  t.1 ≤ c ∧ c < t.1 + 8 ∧ t.2 ≤ r ∧ r < t.2 + 8

instance (t : Nat × Nat) (r c : Nat) : Decidable (inTile t r c) := by
  unfold inTile; infer_instance

/-- The intensity scalar after a command list. -/
def lastIntensity (ops : List LedOp) (i0 : Int) : Int :=
  ops.foldl (fun acc op => nextIntensity op acc) i0

/-- Argument validity per the spec's vocabulary: binary operations take
0/1, level operations take 0–15. -/
def ValidOp : LedOp → Prop
  | .set _ _ s => s = 0 ∨ s = 1
  | .all s => s = 0 ∨ s = 1
  | .map _ _ data => ∀ row ∈ data, ∀ s ∈ row, s = 0 ∨ s = 1
  | .row _ _ data => ∀ s ∈ data, s = 0 ∨ s = 1
  | .col _ _ data => ∀ s ∈ data, s = 0 ∨ s = 1
  | .levelSet _ _ l => 0 ≤ l ∧ l ≤ 15
  | .levelAll l => 0 ≤ l ∧ l ≤ 15
  | .levelMap _ _ data => ∀ row ∈ data, ∀ l ∈ row, 0 ≤ l ∧ l ≤ 15
  | .levelRow _ _ data => ∀ l ∈ data, 0 ≤ l ∧ l ≤ 15
  | .levelCol _ _ data => ∀ l ∈ data, 0 ≤ l ∧ l ≤ 15
  | .intensity _ => True

instance : DecidablePred ValidOp := by
  intro op
  cases op <;> (simp only [ValidOp]; infer_instance)

/-- The five binary (`led_set/all/map/row/col`) operations. -/
def BinaryOp : LedOp → Prop
  | .set _ _ _ => True
  | .all _ => True
  | .map _ _ _ => True
  | .row _ _ _ => True
  | .col _ _ _ => True
  | _ => False

instance : DecidablePred BinaryOp := by
  intro op
  cases op <;> (simp only [BinaryOp]; infer_instance)

/-- The device result whether or not an exception was raised. -/
def resDev (e : Except Device Device) : Device :=
  match e with
  | .ok d => d
  | .error d => d

/-- Two sections whose rectangles share no point. -/
def SecDisjoint (a b : Section) : Prop :=
  ∀ x y : Int, ¬(secContains a x y ∧ secContains b x y)

/-- Concrete 3-page sequential managers for the C7 scenario (switch
button (7,7) on an 8×8 device). -/
def seqDemo0 : SeqPM := ⟨⟨[0, 1, 2], some 0, []⟩, 7, 7⟩

def seqDemo1 : SeqPM := ⟨⟨[0, 1, 2], some 1, []⟩, 7, 7⟩

def seqDemo2 : SeqPM := ⟨⟨[0, 1, 2], some 2, []⟩, 7, 7⟩

/-! ## Basic lemmas -/

theorem normIdx_some_lt {n : Nat} {i : Int} {k : Nat}
    (h : normIdx n i = some k) : k < n := by
  unfold normIdx at h
  split at h <;> split at h <;> simp_all <;> omega

theorem normIdx_of_nonneg {n : Nat} {i : Int}
    (h0 : 0 ≤ i) (h1 : i < (n : Int)) : normIdx n i = some i.toNat := by
  unfold normIdx
  simp [h0, h1]

theorem normIdx_of_neg {n : Nat} {i : Int}
    (h0 : -(n : Int) ≤ i) (h1 : i < 0) :
    normIdx n i = some ((n : Int) + i).toNat := by
  unfold normIdx
  rw [if_neg (by omega), if_pos (by omega)]

theorem normIdx_some_lt_int {n : Nat} {i : Int} {k : Nat}
    (h : normIdx n i = some k) : i < (n : Int) := by
  unfold normIdx at h
  split at h <;> split at h <;> simp_all <;> try omega

theorem pySliceTo_of_length_le {l : List α} {stop : Int}
    (h : (l.length : Int) ≤ stop) : pySliceTo l stop = l := by
  unfold pySliceTo
  rw [if_neg (by omega)]
  exact List.take_of_length_le (by omega)

theorem pySliceTo_subset {l : List α} {stop : Int} {a : α}
    (h : a ∈ pySliceTo l stop) : a ∈ l := by
  unfold pySliceTo at h
  split at h <;> exact List.take_subset _ _ h

theorem mem_foldr_append {l : List α} {f : α → List β} {b : β} :
    b ∈ l.foldr (fun i acc => f i ++ acc) [] ↔ ∃ i ∈ l, b ∈ f i := by
  induction l with
  | nil => simp
  | cons a t ih => simp [List.mem_append, ih]

/-! ## Generic lemmas about `runScript` -/

@[simp] theorem setLevel_width {b : GridBuffer} {r c : Nat} {l : Int} :
    (setLevel b r c l).width = b.width := rfl

@[simp] theorem setLevel_height {b : GridBuffer} {r c : Nat} {l : Int} :
    (setLevel b r c l).height = b.height := rfl

theorem setLevel_self {b : GridBuffer} {r c : Nat} {l : Int} :
    (setLevel b r c l).levels r c = l := by simp [setLevel]

theorem setLevel_other {b : GridBuffer} {r c : Nat} {l : Int} {r' c' : Nat}
    (h : r' ≠ r ∨ c' ≠ c) :
    (setLevel b r c l).levels r' c' = b.levels r' c' := by
  have : ¬(r' = r ∧ c' = c) := by tauto
  simp [setLevel, this]

theorem writeCell_ok_iff {b : GridBuffer} {y x l : Int} {b' : GridBuffer} :
    writeCell b y x l = .ok b' ↔
      ∃ r c, normIdx b.height y = some r ∧ normIdx b.width x = some c ∧
        b' = setLevel b r c l := by
  unfold writeCell
  cases hy : normIdx b.height y <;> cases hx : normIdx b.width x <;>
    simp [eq_comm]

theorem writeCell_error_eq {b : GridBuffer} {y x l : Int} {b' : GridBuffer}
    (h : writeCell b y x l = .error b') : b' = b := by
  unfold writeCell at h
  cases hy : normIdx b.height y <;> cases hx : normIdx b.width x <;>
    rw [hy, hx] at h <;> simp_all

theorem runScript_cons {b : GridBuffer} {y x l : Int} {rest : Script} :
    runScript b ((y, x, l) :: rest) =
      match writeCell b y x l with
      | .ok b' => runScript b' rest
      | .error b' => .error b' := rfl

theorem runScript_dims {s : Script} {b : GridBuffer} :
    (resBuf (runScript b s)).width = b.width ∧
    (resBuf (runScript b s)).height = b.height := by
  induction s generalizing b with
  | nil => simp [runScript, resBuf]
  | cons t rest ih =>
      obtain ⟨ty, tx, tl⟩ := t
      rw [runScript_cons]
      cases hw : writeCell b ty tx tl with
      | ok b' =>
          obtain ⟨r, c, -, -, rfl⟩ := writeCell_ok_iff.mp hw
          simpa using @ih (setLevel b r c tl)
      | error b' =>
          rw [writeCell_error_eq hw]
          simp [resBuf]

theorem runScript_InvOn {P : Int → Prop} {s : Script} {b : GridBuffer}
    (hs : ∀ t ∈ s, P t.2.2) (hb : InvOn P b) :
    InvOn P (resBuf (runScript b s)) := by
  induction s generalizing b with
  | nil => simpa [runScript, resBuf]
  | cons t rest ih =>
      obtain ⟨ty, tx, tl⟩ := t
      rw [runScript_cons]
      cases hw : writeCell b ty tx tl with
      | ok b' =>
          obtain ⟨r, c, -, -, rfl⟩ := writeCell_ok_iff.mp hw
          refine ih (fun u hu => hs u (List.mem_cons_of_mem _ hu)) ?_
          intro r' hr' c' hc'
          by_cases hrc : r' = r ∧ c' = c
          · obtain ⟨rfl, rfl⟩ := hrc
            rw [setLevel_self]
            exact hs (ty, tx, tl) (List.mem_cons_self _ _)
          · rw [setLevel_other (by tauto)]
            exact hb r' (by simpa using hr') c' (by simpa using hc')
      | error b' =>
          rw [writeCell_error_eq hw]
          simpa [resBuf]

/-- Every cell of the result is either untouched or holds a value `P`
allows (used for the binary-operation conjunct of C2). -/
theorem runScript_change {P : Int → Prop} {s : Script} {b : GridBuffer}
    (hs : ∀ t ∈ s, P t.2.2) (r c : Nat) :
    (resBuf (runScript b s)).levels r c = b.levels r c ∨
      P ((resBuf (runScript b s)).levels r c) := by
  induction s generalizing b with
  | nil => simp [runScript, resBuf]
  | cons t rest ih =>
      obtain ⟨ty, tx, tl⟩ := t
      rw [runScript_cons]
      cases hw : writeCell b ty tx tl with
      | ok b' =>
          obtain ⟨r0, c0, -, -, rfl⟩ := writeCell_ok_iff.mp hw
          rcases ih (b := setLevel b r0 c0 tl)
              (fun u hu => hs u (List.mem_cons_of_mem _ hu)) with h | h
          · by_cases hrc : r = r0 ∧ c = c0
            · obtain ⟨rfl, rfl⟩ := hrc
              rw [h, setLevel_self]
              exact Or.inr (hs (ty, tx, tl) (List.mem_cons_self _ _))
            · rw [h, setLevel_other (by tauto)]
              exact Or.inl rfl
          · exact Or.inr h
      | error b' =>
          rw [writeCell_error_eq hw]
          simp [resBuf]

theorem runScript_append_ok {s1 s2 : Script} {b b1 : GridBuffer}
    (h : runScript b s1 = .ok b1) :
    runScript b (s1 ++ s2) = runScript b1 s2 := by
  induction s1 generalizing b with
  | nil => simp [runScript] at h; subst h; rfl
  | cons t rest ih =>
      obtain ⟨ty, tx, tl⟩ := t
      rw [runScript_cons] at h
      rw [List.cons_append, runScript_cons]
      cases hw : writeCell b ty tx tl with
      | ok b' => rw [hw] at h; exact ih h
      | error b' => rw [hw] at h; exact absurd h (by simp)

/-- Characterisation of a left-to-right row write with non-negative,
in-range column indices: every listed cell receives its datum, every
other cell is untouched, and no exception occurs. -/
theorem runScript_rowAux {data : List Int} {b : GridBuffer} {y x : Int} {ry : Nat}
    (hy : normIdx b.height y = some ry)
    (hx0 : 0 ≤ x) (hxe : x + data.length ≤ (b.width : Int)) :
    ∃ b', runScript b (rowScriptAux y x data) = .ok b' ∧
      b'.width = b.width ∧ b'.height = b.height ∧
      (∀ i, i < data.length → b'.levels ry (x.toNat + i) = data.getD i 0) ∧
      (∀ r c, (r ≠ ry ∨ c < x.toNat ∨ x.toNat + data.length ≤ c) →
        b'.levels r c = b.levels r c) := by
  induction data generalizing b x with
  | nil =>
      exact ⟨b, rfl, rfl, rfl, by simp, fun _ _ _ => rfl⟩
  | cons l ls ih =>
      have hxw : x < (b.width : Int) := by simp at hxe; omega
      have hnx : normIdx b.width x = some x.toNat := normIdx_of_nonneg hx0 hxw
      have hwc : writeCell b y x l = .ok (setLevel b ry x.toNat l) := by
        unfold writeCell
        rw [hy, hnx]
      have hy' : normIdx (setLevel b ry x.toNat l).height y = some ry := by
        simpa using hy
      have hxe' : (x + 1) + ls.length ≤ ((setLevel b ry x.toNat l).width : Int) := by
        simp at hxe ⊢; omega
      obtain ⟨b', hrun, hdw, hdh, hset, hfr⟩ :=
        ih (b := setLevel b ry x.toNat l) (x := x + 1) hy' (by omega) hxe'
      have hT : (x + 1).toNat = x.toNat + 1 := by omega
      refine ⟨b', ?_, by simpa using hdw, by simpa using hdh, ?_, ?_⟩
      · show runScript b ((y, x, l) :: rowScriptAux y (x + 1) ls) = .ok b'
        rw [runScript_cons, hwc]
        exact hrun
      · intro i hi
        match i with
        | 0 =>
            have : b'.levels ry (x.toNat + 0) = (setLevel b ry x.toNat l).levels ry x.toNat := by
              refine hfr ry (x.toNat + 0) ?_
              right; left; omega
            rw [this, setLevel_self]
            rfl
        | Nat.succ j =>
            have hj : j < ls.length := by simpa using hi
            have := hset j hj
            rw [hT] at this
            have harith : x.toNat + 1 + j = x.toNat + (j + 1) := by omega
            rw [harith] at this
            simpa using this
      · intro r c hrc
        have hfr' : b'.levels r c = (setLevel b ry x.toNat l).levels r c := by
          refine hfr r c ?_
          rcases hrc with h | h | h
          · exact Or.inl h
          · right; left; omega
          · right; right; rw [hT]; simp at h ⊢; omega
        rw [hfr']
        refine setLevel_other ?_
        rcases hrc with h | h | h
        · exact Or.inl h
        · right; omega
        · right; simp at h; omega

/-- Characterisation of a top-to-bottom column write with non-negative,
in-range row indices. -/
theorem runScript_colAux {data : List Int} {b : GridBuffer} {x y : Int} {cx : Nat}
    (hx : normIdx b.width x = some cx)
    (hy0 : 0 ≤ y) (hye : y + data.length ≤ (b.height : Int)) :
    ∃ b', runScript b (colScriptAux x y data) = .ok b' ∧
      b'.width = b.width ∧ b'.height = b.height ∧
      (∀ i, i < data.length → b'.levels (y.toNat + i) cx = data.getD i 0) ∧
      (∀ r c, (c ≠ cx ∨ r < y.toNat ∨ y.toNat + data.length ≤ r) →
        b'.levels r c = b.levels r c) := by
  induction data generalizing b y with
  | nil =>
      exact ⟨b, rfl, rfl, rfl, by simp, fun _ _ _ => rfl⟩
  | cons l ls ih =>
      have hyh : y < (b.height : Int) := by simp at hye; omega
      have hny : normIdx b.height y = some y.toNat := normIdx_of_nonneg hy0 hyh
      have hwc : writeCell b y x l = .ok (setLevel b y.toNat cx l) := by
        unfold writeCell
        rw [hny, hx]
      have hx' : normIdx (setLevel b y.toNat cx l).width x = some cx := by
        simpa using hx
      have hye' : (y + 1) + ls.length ≤ ((setLevel b y.toNat cx l).height : Int) := by
        simp at hye ⊢; omega
      obtain ⟨b', hrun, hdw, hdh, hset, hfr⟩ :=
        ih (b := setLevel b y.toNat cx l) (y := y + 1) hx' (by omega) hye'
      have hT : (y + 1).toNat = y.toNat + 1 := by omega
      refine ⟨b', ?_, by simpa using hdw, by simpa using hdh, ?_, ?_⟩
      · show runScript b ((y, x, l) :: colScriptAux x (y + 1) ls) = .ok b'
        rw [runScript_cons, hwc]
        exact hrun
      · intro i hi
        match i with
        | 0 =>
            have : b'.levels (y.toNat + 0) cx = (setLevel b y.toNat cx l).levels y.toNat cx := by
              refine hfr (y.toNat + 0) cx ?_
              right; left; omega
            rw [this, setLevel_self]
            rfl
        | Nat.succ j =>
            have hj : j < ls.length := by simpa using hi
            have := hset j hj
            rw [hT] at this
            have harith : y.toNat + 1 + j = y.toNat + (j + 1) := by omega
            rw [harith] at this
            simpa using this
      · intro r c hrc
        have hfr' : b'.levels r c = (setLevel b y.toNat cx l).levels r c := by
          refine hfr r c ?_
          rcases hrc with h | h | h
          · exact Or.inl h
          · right; left; omega
          · right; right; rw [hT]; simp at h ⊢; omega
        rw [hfr']
        refine setLevel_other ?_
        rcases hrc with h | h | h
        · exact Or.inr h
        · left; omega
        · left; simp at h; omega

/-! ## Pointwise agreement (page buffer vs. device surface) -/

theorem Agree.refl (b : GridBuffer) : Agree b b := ⟨rfl, rfl, fun _ _ _ _ => rfl⟩

theorem Agree.symm {b d : GridBuffer} (h : Agree b d) : Agree d b := by
  obtain ⟨hw, hh, hl⟩ := h
  exact ⟨hw.symm, hh.symm, fun r hr c hc => (hl r (hh ▸ hr) c (hw ▸ hc)).symm⟩

theorem Agree.trans {a b c : GridBuffer} (h1 : Agree a b) (h2 : Agree b c) : Agree a c := by
  obtain ⟨hw1, hh1, hl1⟩ := h1
  obtain ⟨hw2, hh2, hl2⟩ := h2
  exact ⟨hw1.trans hw2, hh1.trans hh2,
    fun r hr cc hc => (hl1 r hr cc hc).trans (hl2 r (hh1 ▸ hr) cc (hw1 ▸ hc))⟩

/-- Running the same script on pointwise-equal buffers succeeds on one
iff it succeeds on the other, and preserves agreement. -/
theorem runScript_agree {s : Script} {b d b' : GridBuffer}
    (hag : Agree b d) (h : runScript b s = .ok b') :
    ∃ d', runScript d s = .ok d' ∧ Agree b' d' := by
  induction s generalizing b d with
  | nil =>
      simp [runScript] at h
      exact ⟨d, rfl, h ▸ hag⟩
  | cons t rest ih =>
      obtain ⟨ty, tx, tl⟩ := t
      rw [runScript_cons] at h
      cases hw : writeCell b ty tx tl with
      | ok b1 =>
          rw [hw] at h
          obtain ⟨r, c, hr, hc, rfl⟩ := writeCell_ok_iff.mp hw
          obtain ⟨hdw, hdh, hdl⟩ := hag
          have hwd : writeCell d ty tx tl = .ok (setLevel d r c tl) := by
            unfold writeCell
            rw [← hdh, ← hdw, hr, hc]
          have hag1 : Agree (setLevel b r c tl) (setLevel d r c tl) := by
            refine ⟨by simpa using hdw, by simpa using hdh, ?_⟩
            intro r' hr' c' hc'
            by_cases hrc : r' = r ∧ c' = c
            · obtain ⟨rfl, rfl⟩ := hrc
              rw [setLevel_self, setLevel_self]
            · rw [setLevel_other (by tauto), setLevel_other (by tauto)]
              exact hdl r' (by simpa using hr') c' (by simpa using hc')
          obtain ⟨d', hrun', hag'⟩ := ih hag1 h
          exact ⟨d', by rw [runScript_cons, hwd]; exact hrun', hag'⟩
      | error b1 =>
          rw [hw] at h
          exact absurd h (by simp)

/-- The script of an LED method depends only on the dimensions, which
agree, so one op preserves agreement. -/
theorem applyOp_agree {b d b' : GridBuffer} {op : LedOp}
    (hag : Agree b d) (h : applyOp b op = .ok b') :
    ∃ d', applyOp d op = .ok d' ∧ Agree b' d' := by
  have hw : d.width = b.width := hag.1.symm
  have hh : d.height = b.height := hag.2.1.symm
  unfold applyOp at h ⊢
  rw [hw, hh]
  exact runScript_agree hag h

theorem applyOps_agree {ops : List LedOp} {b d b' : GridBuffer}
    (hag : Agree b d) (h : applyOps b ops = .ok b') :
    ∃ d', applyOps d ops = .ok d' ∧ Agree b' d' := by
  induction ops generalizing b d with
  | nil =>
      simp [applyOps] at h
      exact ⟨d, rfl, h ▸ hag⟩
  | cons op rest ih =>
      unfold applyOps at h
      cases h1 : applyOp b op with
      | ok b1 =>
          rw [h1] at h
          obtain ⟨d1, hd1, hag1⟩ := applyOp_agree hag h1
          obtain ⟨d', hd', hag'⟩ := ih hag1 h
          exact ⟨d', by unfold applyOps; rw [hd1]; exact hd', hag'⟩
      | error e =>
          rw [h1] at h
          exact absurd h (by simp)

theorem applyOps_cons {b : GridBuffer} {op : LedOp} {ops : List LedOp} :
    applyOps b (op :: ops) =
      match applyOp b op with
      | .ok b' => applyOps b' ops
      | .error e => .error e := rfl

theorem applyOps_append {b : GridBuffer} {l1 l2 : List LedOp} {b1 : GridBuffer}
    (h : applyOps b l1 = .ok b1) :
    applyOps b (l1 ++ l2) = applyOps b1 l2 := by
  induction l1 generalizing b with
  | nil => simp [applyOps] at h; subst h; rfl
  | cons op rest ih =>
      rw [applyOps_cons] at h
      rw [List.cons_append, applyOps_cons]
      cases h1 : applyOp b op with
      | ok bb => rw [h1] at h; exact ih h
      | error e => rw [h1] at h; exact absurd h (by simp)

theorem applyOp_dims {b : GridBuffer} {op : LedOp} :
    (resBuf (applyOp b op)).width = b.width ∧
    (resBuf (applyOp b op)).height = b.height :=
  runScript_dims

theorem applyOps_dims {ops : List LedOp} {b : GridBuffer} :
    (resBuf (applyOps b ops)).width = b.width ∧
    (resBuf (applyOps b ops)).height = b.height := by
  induction ops generalizing b with
  | nil => simp [applyOps, resBuf]
  | cons op rest ih =>
      unfold applyOps
      cases h1 : applyOp b op with
      | ok b1 =>
          have hd : b1.width = b.width ∧ b1.height = b.height := by
            have := @applyOp_dims b op
            rw [h1] at this
            exact this
          simpa [hd.1, hd.2] using @ih b1
      | error e =>
          have hd := @applyOp_dims b op
          rw [h1] at hd
          simpa [resBuf] using hd

/-! ## `led_level_row` / `led_level_map` wrappers and `render` -/

theorem runScript_levelRowScript {w h : Nat} {b : GridBuffer}
    (hbw : b.width = w) (hbh : b.height = h)
    {xo y : Int} {data : List Int} {ry : Nat}
    (hy : normIdx h y = some ry) (hx0 : 0 ≤ xo)
    (hxe : xo + data.length ≤ (w : Int)) :
    ∃ b', runScript b (levelRowScript w h xo y data) = .ok b' ∧
      b'.width = w ∧ b'.height = h ∧
      (∀ i, i < data.length → b'.levels ry (xo.toNat + i) = data.getD i 0) ∧
      (∀ r c, (r ≠ ry ∨ c < xo.toNat ∨ xo.toNat + data.length ≤ c) →
        b'.levels r c = b.levels r c) := by
  have hyh : y < (h : Int) := normIdx_some_lt_int hy
  have hslice : pySliceTo data ((w : Int) - xo) = data :=
    pySliceTo_of_length_le (by omega)
  have hscript : levelRowScript w h xo y data = rowScriptAux y xo data := by
    unfold levelRowScript
    rw [if_pos hyh, hslice]
  rw [hscript]
  have hy2 : normIdx b.height y = some ry := by rw [hbh]; exact hy
  have hxe2 : xo + (data.length : Int) ≤ (b.width : Int) := by rw [hbw]; exact hxe
  obtain ⟨b', hrun, hdw, hdh, hw, hf⟩ := runScript_rowAux hy2 hx0 hxe2
  exact ⟨b', hrun, hdw.trans hbw, hdh.trans hbh, hw, hf⟩

theorem runScript_levelMapAux {w h : Nat} {data : List (List Int)} {L : Nat}
    (hL : ∀ row ∈ data, row.length = L) {b : GridBuffer}
    (hbw : b.width = w) (hbh : b.height = h)
    {xo yo : Int} (hx0 : 0 ≤ xo) (hy0 : 0 ≤ yo)
    (hxe : xo + L ≤ (w : Int)) (hye : yo + data.length ≤ (h : Int)) :
    ∃ b', runScript b (levelMapAux w h xo yo data) = .ok b' ∧
      b'.width = w ∧ b'.height = h ∧
      (∀ r, r < data.length → ∀ i, i < L →
        b'.levels (yo.toNat + r) (xo.toNat + i) = (data.getD r []).getD i 0) ∧
      (∀ r c, (r < yo.toNat ∨ yo.toNat + data.length ≤ r ∨
               c < xo.toNat ∨ xo.toNat + L ≤ c) →
        b'.levels r c = b.levels r c) := by
  induction data generalizing b yo with
  | nil =>
      exact ⟨b, rfl, hbw, hbh, by simp, fun _ _ _ => rfl⟩
  | cons row rows ih =>
      have hrowL : row.length = L := hL row (by simp)
      have hyoh : yo < (h : Int) := by simp at hye; omega
      have hny : normIdx h yo = some yo.toNat := normIdx_of_nonneg hy0 hyoh
      obtain ⟨b1, hrun1, hbw1, hbh1, hset1, hfr1⟩ :=
        runScript_levelRowScript hbw hbh hny hx0 (by rw [hrowL]; exact hxe)
      have hye' : (yo + 1) + rows.length ≤ (h : Int) := by simp at hye; omega
      have hy0n : (0 : Int) ≤ yo + 1 := by omega
      obtain ⟨b', hrun', hbw', hbh', hset', hfr'⟩ :=
        ih (fun r hr => hL r (List.mem_cons_of_mem _ hr)) hbw1 hbh1 hy0n hye'
      have hT : (yo + 1).toNat = yo.toNat + 1 := by omega
      rw [hT] at hset' hfr'
      refine ⟨b', ?_, hbw', hbh', ?_, ?_⟩
      · show runScript b (levelRowScript w h xo yo row ++ levelMapAux w h xo (yo + 1) rows) = .ok b'
        rw [runScript_append_ok hrun1]
        exact hrun'
      · intro r hr i hi
        match r with
        | 0 =>
            have hfr'0 : b'.levels (yo.toNat + 0) (xo.toNat + i) =
                b1.levels yo.toNat (xo.toNat + i) := by
              refine hfr' (yo.toNat + 0) (xo.toNat + i) ?_
              left; omega
            rw [hfr'0]
            simpa using hset1 i (by omega)
        | Nat.succ j =>
            have hj : j < rows.length := by simpa using hr
            have := hset' j hj i hi
            have harith : yo.toNat + 1 + j = yo.toNat + (j + 1) := by omega
            rw [harith] at this
            simpa using this
      · intro r c hrc
        have step2 : b'.levels r c = b1.levels r c := by
          refine hfr' r c ?_
          rcases hrc with hh | hh | hh | hh
          · left; omega
          · right; left; simp at hh ⊢; omega
          · right; right; left; exact hh
          · right; right; right; exact hh
        rw [step2]
        refine hfr1 r c ?_
        rcases hrc with hh | hh | hh | hh
        · left; omega
        · left; simp at hh; omega
        · right; left; exact hh
        · right; right; omega

/-- Elements of `getLevelMap`. -/
theorem getLevelMap_len {b : GridBuffer} {xo yo : Nat} :
    (getLevelMap b xo yo).length = 8 ∧
    (∀ row ∈ getLevelMap b xo yo, row.length = 8) := by
  constructor
  · simp [getLevelMap]
  · intro row hrow
    simp [getLevelMap] at hrow
    obtain ⟨r, -, rfl⟩ := hrow
    simp

theorem getLevelMap_getD {b : GridBuffer} {xo yo : Nat} {r i : Nat}
    (hr : r < 8) (hi : i < 8) :
    ((getLevelMap b xo yo).getD r []).getD i 0 = b.levels (yo + r) (xo + i) := by
  unfold getLevelMap
  have h1 : ∀ (f : Nat → List Int),
      (List.map f (List.range 8)).getD r [] = f r := by
    intro f
    rw [List.getD_eq_getElem?_getD, List.getElem?_map, List.getElem?_range hr]
    rfl
  rw [h1]
  rw [List.getD_eq_getElem?_getD, List.getElem?_map, List.getElem?_range hi]
  rfl

/-- Running one `led_level_map` command per tile (each tile's data read
from `b`) on a same-sized surface `d`: tiles end up holding `b`'s
levels, everything else keeps `d`'s. -/
theorem tiles_run {b : GridBuffer} {ts : List (Nat × Nat)} {d : GridBuffer}
    (hdw : d.width = b.width) (hdh : d.height = b.height)
    (hts : ∀ t ∈ ts, t.1 + 8 ≤ b.width ∧ t.2 + 8 ≤ b.height) :
    ∃ d', applyOps d
        (ts.map (fun t => LedOp.levelMap (t.1 : Int) (t.2 : Int) (getLevelMap b t.1 t.2)))
        = .ok d' ∧
      d'.width = b.width ∧ d'.height = b.height ∧
      ∀ r c, ((∃ t ∈ ts, inTile t r c) → d'.levels r c = b.levels r c) ∧
             ((∀ t ∈ ts, ¬ inTile t r c) → d'.levels r c = d.levels r c) := by
  induction ts generalizing d with
  | nil =>
      exact ⟨d, rfl, hdw, hdh, fun r c => ⟨by simp, fun _ => rfl⟩⟩
  | cons t ts ih =>
      obtain ⟨ht1, ht2⟩ := hts t (by simp)
      have hdata := @getLevelMap_len b t.1 t.2
      have hx0t : (0 : Int) ≤ ((t.1 : Nat) : Int) := by positivity
      have hy0t : (0 : Int) ≤ ((t.2 : Nat) : Int) := by positivity
      obtain ⟨d1, hrun1, hw1, hh1, hset1, hfr1⟩ :=
        runScript_levelMapAux (w := d.width) (h := d.height) (L := 8)
          hdata.2 (b := d) rfl rfl hx0t hy0t
          (by rw [hdw]; exact_mod_cast ht1)
          (by rw [hdh, hdata.1]; exact_mod_cast ht2)
      have hcmd : applyOp d (LedOp.levelMap (t.1 : Int) (t.2 : Int) (getLevelMap b t.1 t.2)) = .ok d1 := by
        unfold applyOp opScript levelMapScript
        exact hrun1
      obtain ⟨d', hrun', hw', hh', hcells⟩ :=
        ih (d := d1) (hw1.trans hdw) (hh1.trans hdh)
          (fun u hu => hts u (List.mem_cons_of_mem _ hu))
      refine ⟨d', ?_, hw', hh', ?_⟩
      · rw [List.map_cons, applyOps_cons, hcmd]
        exact hrun'
      · intro r c
        constructor
        · intro hcov
          rcases hcov with ⟨u, hu, hintile⟩
          rcases List.mem_cons.mp hu with rfl | hu'
          · by_cases htail : ∃ v ∈ ts, inTile v r c
            · exact (hcells r c).1 htail
            · push_neg at htail
              have hstep : d'.levels r c = d1.levels r c := (hcells r c).2 htail
              rw [hstep]
              obtain ⟨hc1, hc2, hr1, hr2⟩ := hintile
              have hr' : r = u.2 + (r - u.2) := by omega
              have hc' : c = u.1 + (c - u.1) := by omega
              rw [hr', hc']
              have := hset1 (r - u.2) (by rw [hdata.1]; omega) (c - u.1) (by omega)
              simp only [Int.toNat_natCast] at this
              rw [this]
              rw [getLevelMap_getD (by omega) (by omega)]
          · exact (hcells r c).1 ⟨u, hu', hintile⟩
        · intro hnone
          have hstep : d'.levels r c = d1.levels r c :=
            (hcells r c).2 (fun v hv => hnone v (List.mem_cons_of_mem _ hv))
          rw [hstep]
          have hhead := hnone t (by simp)
          unfold inTile at hhead
          refine hfr1 r c ?_
          simp only [Int.toNat_natCast, hdata.1]
          omega

/-- Membership in the tile list visited by `render`. -/
theorem mem_tileOffsets {w h : Nat} {t : Nat × Nat} :
    t ∈ tileOffsets w h ↔ ∃ i < w / 8, ∃ j < h / 8, t = (8 * i, 8 * j) := by
  unfold tileOffsets
  rw [mem_foldr_append]
  constructor
  · rintro ⟨i, hi, hmem⟩
    simp at hmem hi
    obtain ⟨j, hj, rfl⟩ := hmem
    exact ⟨i, hi, j, hj, rfl⟩
  · rintro ⟨i, hi, j, hj, rfl⟩
    refine ⟨i, by simpa using hi, ?_⟩
    rw [List.mem_map]
    exact ⟨j, by simpa using hj, rfl⟩

/-- Source `render` pushes the whole buffer: after its commands run on a
same-sized surface, the surface agrees with the buffer on every in-range
cell (dimensions multiples of 8, as the spec requires). -/
theorem render_run {b d : GridBuffer} (hdw : d.width = b.width) (hdh : d.height = b.height)
    (hw8 : b.width % 8 = 0) (hh8 : b.height % 8 = 0) :
    ∃ d', applyOps d (renderCmds b) = .ok d' ∧ Agree b d' ∧
      d'.width = b.width ∧ d'.height = b.height := by
  have hbound : ∀ t ∈ tileOffsets b.width b.height,
      t.1 + 8 ≤ b.width ∧ t.2 + 8 ≤ b.height := by
    intro t ht
    obtain ⟨i, hi, j, hj, rfl⟩ := mem_tileOffsets.mp ht
    constructor <;> simp <;> omega
  obtain ⟨d', hrun, hw', hh', hcells⟩ := tiles_run hdw hdh hbound
  refine ⟨d', by unfold renderCmds; exact hrun, ⟨hw'.symm, hh'.symm, ?_⟩, hw', hh'⟩
  intro r hr c hc
  have hcov : ∃ t ∈ tileOffsets b.width b.height, inTile t r c := by
    refine ⟨(8 * (c / 8), 8 * (r / 8)), ?_, ?_⟩
    · rw [mem_tileOffsets]
      exact ⟨c / 8, by omega, r / 8, by omega, rfl⟩
    · unfold inTile
      simp
      omega
  exact ((hcells r c).1 hcov).symm

/-! ## Device and page sequencing -/

theorem applyOp_intensity {b : GridBuffer} {i : Int} :
    applyOp b (.intensity i) = .ok b := rfl

theorem lastIntensity_append {l1 l2 : List LedOp} {i : Int} :
    lastIntensity (l1 ++ l2) i = lastIntensity l2 (lastIntensity l1 i) :=
  List.foldl_append ..

theorem lastIntensity_of_no_intensity {ops : List LedOp} {i : Int}
    (h : ∀ j : Int, LedOp.intensity j ∉ ops) : lastIntensity ops i = i := by
  induction ops generalizing i with
  | nil => rfl
  | cons op rest ih =>
      have hop : nextIntensity op i = i := by
        cases op
        case intensity j => exact absurd (by simp) (h j)
        all_goals rfl
      show lastIntensity rest (nextIntensity op i) = i
      rw [hop]
      exact ih (fun j hj => h j (List.mem_cons_of_mem _ hj))

theorem renderCmds_no_intensity {b : GridBuffer} {j : Int} :
    LedOp.intensity j ∉ renderCmds b := by
  unfold renderCmds
  intro hmem
  rw [List.mem_map] at hmem
  obtain ⟨t, -, h⟩ := hmem
  exact absurd h (by simp)

/-- If the surface interpretation of a command list succeeds, the device
run succeeds with that surface and the last-written intensity. -/
theorem deviceRun_of_applyOps {d : Device} {ops : List LedOp} {b : GridBuffer}
    (h : applyOps d.surf ops = .ok b) :
    deviceRun d ops = .ok ⟨b, lastIntensity ops d.intensity⟩ := by
  induction ops generalizing d with
  | nil =>
      simp [applyOps] at h
      subst h
      rfl
  | cons op rest ih =>
      rw [applyOps_cons] at h
      cases h1 : applyOp d.surf op with
      | ok b1 =>
          rw [h1] at h
          have hstep : deviceStep d op = .ok ⟨b1, nextIntensity op d.intensity⟩ := by
            unfold deviceStep
            rw [h1]
          show (match deviceStep d op with
            | .ok d' => deviceRun d' rest
            | .error e => .error e) = _
          rw [hstep]
          exact ih (d := ⟨b1, nextIntensity op d.intensity⟩) h
      | error e =>
          rw [h1] at h
          exact absurd h (by simp)

theorem pageStep_ok {a : Bool} {p : Page} {op : LedOp} {b : GridBuffer}
    (h : applyOp p.buffer op = .ok b) :
    pageStep a p op = .ok (⟨b, nextIntensity op p.intensity⟩, if a then [op] else []) := by
  cases op
  case intensity i =>
      rw [applyOp_intensity] at h
      cases h
      rfl
  all_goals
    simp only [pageStep, h, nextIntensity]

theorem pageSteps_ok {a : Bool} {p : Page} {ops : List LedOp} {b : GridBuffer}
    (h : applyOps p.buffer ops = .ok b) :
    pageSteps a p ops = .ok (⟨b, lastIntensity ops p.intensity⟩, if a then ops else []) := by
  induction ops generalizing p with
  | nil =>
      simp [applyOps] at h
      subst h
      cases a <;> rfl
  | cons op rest ih =>
      rw [applyOps_cons] at h
      cases h1 : applyOp p.buffer op with
      | ok b1 =>
          rw [h1] at h
          have hstep := pageStep_ok (a := a) h1
          have hrest := ih (p := ⟨b1, nextIntensity op p.intensity⟩) h
          simp only [pageSteps, hstep, hrest]
          cases a <;> simp [lastIntensity]
      | error e =>
          rw [h1] at h
          exact absurd h (by simp)

/-! ## Values written by the LED methods (C2) -/

theorem mem_rowScriptAux {y x : Int} {data : List Int} {t : Int × Int × Int}
    (h : t ∈ rowScriptAux y x data) : t.2.2 ∈ data := by
  induction data generalizing x with
  | nil => simp [rowScriptAux] at h
  | cons l ls ih =>
      rcases List.mem_cons.mp h with rfl | h'
      · simp
      · exact List.mem_cons_of_mem _ (ih h')

theorem mem_colScriptAux {x y : Int} {data : List Int} {t : Int × Int × Int}
    (h : t ∈ colScriptAux x y data) : t.2.2 ∈ data := by
  induction data generalizing y with
  | nil => simp [colScriptAux] at h
  | cons l ls ih =>
      rcases List.mem_cons.mp h with rfl | h'
      · simp
      · exact List.mem_cons_of_mem _ (ih h')

theorem mem_levelSetScript {w h : Nat} {x y l : Int} {t : Int × Int × Int}
    (hm : t ∈ levelSetScript w h x y l) : t.2.2 = l := by
  unfold levelSetScript at hm
  split at hm <;> simp at hm
  rw [hm]

theorem mem_levelAllScript {w h : Nat} {l : Int} {t : Int × Int × Int}
    (hm : t ∈ levelAllScript w h l) : t.2.2 = l := by
  unfold levelAllScript at hm
  rw [mem_foldr_append] at hm
  obtain ⟨i, -, hmem⟩ := hm
  rw [List.mem_map] at hmem
  obtain ⟨j, -, rfl⟩ := hmem
  rfl

theorem mem_levelRowScript {w h : Nat} {xo y : Int} {data : List Int} {t : Int × Int × Int}
    (hm : t ∈ levelRowScript w h xo y data) : t.2.2 ∈ data := by
  unfold levelRowScript at hm
  split at hm
  · exact pySliceTo_subset (mem_rowScriptAux hm)
  · simp at hm

theorem mem_levelColScript {w h : Nat} {x yo : Int} {data : List Int} {t : Int × Int × Int}
    (hm : t ∈ levelColScript w h x yo data) : t.2.2 ∈ data := by
  unfold levelColScript at hm
  split at hm
  · exact pySliceTo_subset (mem_colScriptAux hm)
  · simp at hm

theorem mem_levelMapAux {w h : Nat} {xo y : Int} {data : List (List Int)} {t : Int × Int × Int}
    (hm : t ∈ levelMapAux w h xo y data) : ∃ row ∈ data, t.2.2 ∈ row := by
  induction data generalizing y with
  | nil => simp [levelMapAux] at hm
  | cons row rows ih =>
      rcases List.mem_append.mp hm with h' | h'
      · exact ⟨row, by simp, mem_levelRowScript h'⟩
      · obtain ⟨r, hr, hv⟩ := ih h'
        exact ⟨r, List.mem_cons_of_mem _ hr, hv⟩

theorem mem_setScript {w h : Nat} {x y s : Int} {t : Int × Int × Int}
    (hm : t ∈ setScript w h x y s) : t.2.2 = s * 15 :=
  mem_levelSetScript hm

theorem mem_binRowAux {w h : Nat} {y x : Int} {data : List Int} {t : Int × Int × Int}
    (hm : t ∈ binRowAux w h y x data) : ∃ s ∈ data, t.2.2 = s * 15 := by
  induction data generalizing x with
  | nil => simp [binRowAux] at hm
  | cons s ss ih =>
      rcases List.mem_append.mp hm with h' | h'
      · exact ⟨s, by simp, mem_setScript h'⟩
      · obtain ⟨u, hu, hv⟩ := ih h'
        exact ⟨u, List.mem_cons_of_mem _ hu, hv⟩

theorem mem_binColAux {w h : Nat} {x y : Int} {data : List Int} {t : Int × Int × Int}
    (hm : t ∈ binColAux w h x y data) : ∃ s ∈ data, t.2.2 = s * 15 := by
  induction data generalizing y with
  | nil => simp [binColAux] at hm
  | cons s ss ih =>
      rcases List.mem_append.mp hm with h' | h'
      · exact ⟨s, by simp, mem_setScript h'⟩
      · obtain ⟨u, hu, hv⟩ := ih h'
        exact ⟨u, List.mem_cons_of_mem _ hu, hv⟩

theorem mem_mapAux {w h : Nat} {xo y : Int} {data : List (List Int)} {t : Int × Int × Int}
    (hm : t ∈ mapAux w h xo y data) : ∃ row ∈ data, ∃ s ∈ row, t.2.2 = s * 15 := by
  induction data generalizing y with
  | nil => simp [mapAux] at hm
  | cons row rows ih =>
      rcases List.mem_append.mp hm with h' | h'
      · obtain ⟨s, hs, hv⟩ := mem_binRowAux h'
        exact ⟨row, by simp, s, hs, hv⟩
      · obtain ⟨r, hr, s, hs, hv⟩ := ih h'
        exact ⟨r, List.mem_cons_of_mem _ hr, s, hs, hv⟩

theorem opScript_valid {w h : Nat} {op : LedOp} (hv : ValidOp op) :
    ∀ t ∈ opScript w h op, 0 ≤ t.2.2 ∧ t.2.2 ≤ 15 := by
  intro t ht
  cases op with
  | set x y s =>
      rw [mem_setScript ht]
      rcases hv with rfl | rfl <;> norm_num
  | all s =>
      have := mem_levelAllScript (w := w) (h := h) (l := s * 15) ht
      rw [this]
      rcases hv with rfl | rfl <;> norm_num
  | map xo yo data =>
      obtain ⟨row, hrow, s, hs, hval⟩ := mem_mapAux ht
      rw [hval]
      rcases hv row hrow s hs with rfl | rfl <;> norm_num
  | row xo y data =>
      obtain ⟨s, hs, hval⟩ := mem_binRowAux ht
      rw [hval]
      rcases hv s hs with rfl | rfl <;> norm_num
  | col x yo data =>
      obtain ⟨s, hs, hval⟩ := mem_binColAux ht
      rw [hval]
      rcases hv s hs with rfl | rfl <;> norm_num
  | levelSet x y l =>
      rw [mem_levelSetScript ht]
      exact hv
  | levelAll l =>
      rw [mem_levelAllScript ht]
      exact hv
  | levelMap xo yo data =>
      obtain ⟨row, hrow, hval⟩ := mem_levelMapAux ht
      exact hv row hrow _ hval
  | levelRow xo y data =>
      exact hv _ (mem_levelRowScript ht)
  | levelCol x yo data =>
      exact hv _ (mem_levelColScript ht)
  | intensity i =>
      simp [opScript] at ht

theorem opScript_binary {w h : Nat} {op : LedOp} (hb : BinaryOp op) (hv : ValidOp op) :
    ∀ t ∈ opScript w h op, t.2.2 = 0 ∨ t.2.2 = 15 := by
  intro t ht
  cases op with
  | set x y s =>
      rw [mem_setScript ht]
      rcases hv with rfl | rfl <;> norm_num
  | all s =>
      have := mem_levelAllScript (w := w) (h := h) (l := s * 15) ht
      rw [this]
      rcases hv with rfl | rfl <;> norm_num
  | map xo yo data =>
      obtain ⟨row, hrow, s, hs, hval⟩ := mem_mapAux ht
      rw [hval]
      rcases hv row hrow s hs with rfl | rfl <;> norm_num
  | row xo y data =>
      obtain ⟨s, hs, hval⟩ := mem_binRowAux ht
      rw [hval]
      rcases hv s hs with rfl | rfl <;> norm_num
  | col x yo data =>
      obtain ⟨s, hs, hval⟩ := mem_binColAux ht
      rw [hval]
      rcases hv s hs with rfl | rfl <;> norm_num
  | levelSet x y l => exact absurd hb (by simp [BinaryOp])
  | levelAll l => exact absurd hb (by simp [BinaryOp])
  | levelMap xo yo data => exact absurd hb (by simp [BinaryOp])
  | levelRow xo y data => exact absurd hb (by simp [BinaryOp])
  | levelCol x yo data => exact absurd hb (by simp [BinaryOp])
  | intensity i => exact absurd hb (by simp [BinaryOp])

theorem applyOps_InvOn {ops : List LedOp} {b : GridBuffer}
    (hv : ∀ op ∈ ops, ValidOp op)
    (hb : InvOn (fun l => 0 ≤ l ∧ l ≤ 15) b) :
    InvOn (fun l => 0 ≤ l ∧ l ≤ 15) (resBuf (applyOps b ops)) := by
  induction ops generalizing b with
  | nil => simpa [applyOps, resBuf]
  | cons op rest ih =>
      have h1 : InvOn (fun l => 0 ≤ l ∧ l ≤ 15) (resBuf (applyOp b op)) :=
        runScript_InvOn (opScript_valid (hv op (by simp))) hb
      rw [applyOps_cons]
      cases hc : applyOp b op with
      | ok b1 =>
          rw [hc] at h1
          exact ih (fun u hu => hv u (List.mem_cons_of_mem _ hu)) h1
      | error e =>
          rw [hc] at h1
          exact h1

/-! ## Claim theorems -/

/-- C1 (code bug evidence): receiving `/sys/disconnect` does *not* set
the state to Disconnected, close the endpoint, or notify the listener:
the registered handler (`lambda *args: self.__sys_disconnect`) returns
the bound method without calling it, so the grid state is untouched and
no callback runs; and even the method body itself would call
`on_grid_ready`, not `on_grid_disconnect`. -/
theorem claim_c1 :
    dispatchSysDisconnect ⟨.ready, true, true⟩ = (⟨.ready, true, true⟩, []) ∧
    (dispatchSysDisconnect ⟨.ready, true, true⟩).1.st ≠ ConnState.disconnected ∧
    (dispatchSysDisconnect ⟨.ready, true, true⟩).1.transportOpen = true ∧
    (dispatchSysDisconnect ⟨.ready, true, true⟩).2 = [] ∧
    (sysDisconnectMethod ⟨.ready, true, true⟩).2 = [.onGridReady] ∧
    ListenerCall.onGridReady ≠ ListenerCall.onGridDisconnect := by
  refine ⟨rfl, by decide, rfl, rfl, rfl, by decide⟩

/-- C2 counterexample: with arbitrary integer arguments the stored
levels do *not* stay in [0,15] — `led_level_set(0, 0, 99)` stores 99
unclamped. -/
theorem claim_c2_cex :
    ¬ InvOn (fun l => 0 ≤ l ∧ l ≤ 15)
      (resBuf (applyOp (GridBuffer.init 8 8) (.levelSet 0 0 99))) := by
  intro hinv
  have := hinv 0 (by decide) 0 (by decide)
  revert this
  decide

/-- C2 (amended): starting from a fresh `GridBuffer`, any sequence of
LED operations whose binary arguments are 0/1 and whose level arguments
lie in [0,15] keeps every stored level in [0,15]; and a single binary
operation leaves every cell either untouched or set to 0 or 15. -/
theorem claim_c2 :
    (∀ (w h : Nat) (ops : List LedOp), (∀ op ∈ ops, ValidOp op) →
      InvOn (fun l => 0 ≤ l ∧ l ≤ 15) (resBuf (applyOps (GridBuffer.init w h) ops))) ∧
    (∀ (b : GridBuffer) (op : LedOp), BinaryOp op → ValidOp op → ∀ r c : Nat,
      (resBuf (applyOp b op)).levels r c = b.levels r c ∨
      (resBuf (applyOp b op)).levels r c = 0 ∨
      (resBuf (applyOp b op)).levels r c = 15) := by
  constructor
  · intro w h ops hv
    refine applyOps_InvOn hv ?_
    intro r _ c _
    simp [GridBuffer.init]
  · intro b op hb hv r c
    have := runScript_change (b := b)
      (s := opScript b.width b.height op)
      (P := fun v => v = 0 ∨ v = 15) (opScript_binary hb hv) r c
    unfold applyOp
    tauto

theorem claim_c2_witness :
    ((∀ op ∈ ([.set 1 1 1, .levelRow 0 2 [3, 4], .all 0] : List LedOp), ValidOp op) ∧
      InvOn (fun l => 0 ≤ l ∧ l ≤ 15)
        (resBuf (applyOps (GridBuffer.init 8 8)
          [.set 1 1 1, .levelRow 0 2 [3, 4], .all 0]))) ∧
    (BinaryOp (.set 1 1 1) ∧ ValidOp (.set 1 1 1) ∧
      ((resBuf (applyOp (GridBuffer.init 8 8) (.set 1 1 1))).levels 1 1 =
          (GridBuffer.init 8 8).levels 1 1 ∨
        (resBuf (applyOp (GridBuffer.init 8 8) (.set 1 1 1))).levels 1 1 = 0 ∨
        (resBuf (applyOp (GridBuffer.init 8 8) (.set 1 1 1))).levels 1 1 = 15)) :=
  ⟨⟨by decide, claim_c2.1 8 8 _ (by decide)⟩,
   ⟨by decide, by decide, claim_c2.2 (GridBuffer.init 8 8) _ (by decide) (by decide) 1 1⟩⟩

/-- C3 (code bug evidence): every combine operation raises `NameError`
(the result class `LedBuffer` is undefined in the module) — it neither
performs a dimension check nor returns a combined surface, for equal
and unequal dimensions alike. -/
theorem claim_c3 :
    combineAnd (GridBuffer.init 8 8) (GridBuffer.init 8 8) = .error .nameErrorLedBuffer ∧
    combineXor (GridBuffer.init 8 8) (GridBuffer.init 8 8) = .error .nameErrorLedBuffer ∧
    combineOr (GridBuffer.init 8 8) (GridBuffer.init 8 8) = .error .nameErrorLedBuffer ∧
    combineAnd (GridBuffer.init 8 8) (GridBuffer.init 4 4) = .error .nameErrorLedBuffer :=
  ⟨rfl, rfl, rfl, rfl⟩

/-- C4 (code bug evidence): a 4×4 `Section` at offset (0,0) receiving
`led_all(1)` forwards a full 8×8 `led_map`, which lights physical cell
(5,5) — outside the section's rectangle — on an 8×8 device. -/
theorem claim_c4 :
    sectionFwd ⟨4, 4, 0, 0⟩ (.all 1) =
      [.map 0 0 (List.replicate 8 (List.replicate 8 1))] ∧
    Except.isOkB (deviceRun ⟨GridBuffer.init 8 8, 0⟩
      (sectionFwd ⟨4, 4, 0, 0⟩ (.all 1))) = true ∧
    (resDev (deviceRun ⟨GridBuffer.init 8 8, 0⟩
      (sectionFwd ⟨4, 4, 0, 0⟩ (.all 1)))).surf.levels 5 5 = 15 ∧
    ¬ secContains ⟨4, 4, 0, 0⟩ 5 5 := by
  refine ⟨rfl, by decide, by decide, by decide⟩

/-- Helper for C9: the pack/unpack statement over all 2^8 binary rows,
by exhaustive evaluation. -/
theorem packRow_bits (a0 a1 a2 a3 a4 a5 a6 a7 : Fin 2) :
    packRow [a0.val, a1.val, a2.val, a3.val, a4.val, a5.val, a6.val, a7.val] =
      ((List.range 8).map
        (fun c => ([a0.val, a1.val, a2.val, a3.val, a4.val, a5.val, a6.val, a7.val].getD c 0) <<< c)).sum ∧
    unpackRow (packRow [a0.val, a1.val, a2.val, a3.val, a4.val, a5.val, a6.val, a7.val]) =
      [a0.val, a1.val, a2.val, a3.val, a4.val, a5.val, a6.val, a7.val] ∧
    packRow [a0.val, a1.val, a2.val, a3.val, a4.val, a5.val, a6.val, a7.val] < 256 := by
  revert a0 a1 a2 a3 a4 a5 a6 a7
  decide

set_option maxRecDepth 8000 in
/-- C9: for every 8-element binary row, `pack_row` equals
`Σ row[col] << col`, packs into 0..255, and round-trips with the bit-`i`
= column-`i` decode; conversely every byte unpacks and re-packs to
itself, so packing is a bijection onto 0..255. -/
theorem claim_c9 :
    (∀ row : List Nat, row.length = 8 → (∀ v ∈ row, v = 0 ∨ v = 1) →
      packRow row = ((List.range 8).map (fun c => row.getD c 0 <<< c)).sum ∧
      unpackRow (packRow row) = row ∧ packRow row < 256) ∧
    (∀ n, n < 256 → packRow (unpackRow n) = n) := by
  constructor
  · intro row hlen hbin
    obtain ⟨a0, a1, a2, a3, a4, a5, a6, a7, rfl⟩ :
        ∃ a0 a1 a2 a3 a4 a5 a6 a7, row = [a0, a1, a2, a3, a4, a5, a6, a7] := by
      rcases row with _ | ⟨a0, _ | ⟨a1, _ | ⟨a2, _ | ⟨a3, _ | ⟨a4, _ | ⟨a5, _ | ⟨a6, _ | ⟨a7, t⟩⟩⟩⟩⟩⟩⟩⟩ <;>
        simp only [List.length_nil, List.length_cons] at hlen
      all_goals try omega
      have ht : t = [] := List.length_eq_zero.mp (by omega)
      subst ht
      exact ⟨a0, a1, a2, a3, a4, a5, a6, a7, rfl⟩
    have toFin : ∀ v : Nat, v = 0 ∨ v = 1 → ∃ f : Fin 2, v = f.val := by
      rintro v (rfl | rfl)
      exacts [⟨0, rfl⟩, ⟨1, rfl⟩]
    obtain ⟨f0, rfl⟩ := toFin a0 (hbin a0 (by simp))
    obtain ⟨f1, rfl⟩ := toFin a1 (hbin a1 (by simp))
    obtain ⟨f2, rfl⟩ := toFin a2 (hbin a2 (by simp))
    obtain ⟨f3, rfl⟩ := toFin a3 (hbin a3 (by simp))
    obtain ⟨f4, rfl⟩ := toFin a4 (hbin a4 (by simp))
    obtain ⟨f5, rfl⟩ := toFin a5 (hbin a5 (by simp))
    obtain ⟨f6, rfl⟩ := toFin a6 (hbin a6 (by simp))
    obtain ⟨f7, rfl⟩ := toFin a7 (hbin a7 (by simp))
    exact packRow_bits f0 f1 f2 f3 f4 f5 f6 f7
  · decide

theorem claim_c9_witness :
    (([1, 0, 1, 1, 0, 0, 1, 0] : List Nat).length = 8 ∧
      (∀ v ∈ ([1, 0, 1, 1, 0, 0, 1, 0] : List Nat), v = 0 ∨ v = 1) ∧
      packRow [1, 0, 1, 1, 0, 0, 1, 0] =
        ((List.range 8).map
          (fun c => ([1, 0, 1, 1, 0, 0, 1, 0] : List Nat).getD c 0 <<< c)).sum ∧
      unpackRow (packRow [1, 0, 1, 1, 0, 0, 1, 0]) = [1, 0, 1, 1, 0, 0, 1, 0] ∧
      packRow [1, 0, 1, 1, 0, 0, 1, 0] < 256) ∧
    (255 < 256 ∧ packRow (unpackRow 255) = 255) :=
  ⟨⟨rfl, by decide,
    (claim_c9.1 [1, 0, 1, 1, 0, 0, 1, 0] rfl (by decide)).1,
    (claim_c9.1 [1, 0, 1, 1, 0, 0, 1, 0] rfl (by decide)).2.1,
    (claim_c9.1 [1, 0, 1, 1, 0, 0, 1, 0] rfl (by decide)).2.2⟩,
   ⟨by decide, claim_c9.2 255 (by decide)⟩⟩

/-- C10: `led_level_set` only guards the upper bounds, so a negative
coordinate within `-width ≤ x < 0` (resp. `-height ≤ y < 0`) passes the
check and the write lands, unclipped and unrejected, in the in-bounds
cell counted from the opposite edge; `led_level_row` with a negative row
index and `led_level_col` with a negative column index behave the same
way. -/
theorem claim_c10 :
    (∀ (b : GridBuffer) (x y l : Int), -(b.width : Int) ≤ x → x < 0 →
      0 ≤ y → y < (b.height : Int) →
      ∃ b', applyOp b (.levelSet x y l) = .ok b' ∧
        b'.levels y.toNat ((b.width : Int) + x).toNat = l) ∧
    (∀ (b : GridBuffer) (x y l : Int), 0 ≤ x → x < (b.width : Int) →
      -(b.height : Int) ≤ y → y < 0 →
      ∃ b', applyOp b (.levelSet x y l) = .ok b' ∧
        b'.levels ((b.height : Int) + y).toNat x.toNat = l) ∧
    (∀ (b : GridBuffer) (xo y : Int) (data : List Int), 0 ≤ xo →
      xo + data.length ≤ (b.width : Int) → -(b.height : Int) ≤ y → y < 0 →
      ∃ b', applyOp b (.levelRow xo y data) = .ok b' ∧
        ∀ i, i < data.length →
          b'.levels ((b.height : Int) + y).toNat (xo.toNat + i) = data.getD i 0) ∧
    (∀ (b : GridBuffer) (x yo : Int) (data : List Int), -(b.width : Int) ≤ x →
      x < 0 → 0 ≤ yo → yo + data.length ≤ (b.height : Int) →
      ∃ b', applyOp b (.levelCol x yo data) = .ok b' ∧
        ∀ i, i < data.length →
          b'.levels (yo.toNat + i) ((b.width : Int) + x).toNat = data.getD i 0) := by
  refine ⟨?_, ?_, ?_, ?_⟩
  · intro b x y l hx0 hx1 hy0 hy1
    have hguard : x < (b.width : Int) ∧ y < (b.height : Int) := ⟨by omega, hy1⟩
    have hscript : opScript b.width b.height (.levelSet x y l) = [(y, x, l)] := by
      show levelSetScript b.width b.height x y l = [(y, x, l)]
      unfold levelSetScript
      rw [if_pos hguard]
    have hny : normIdx b.height y = some y.toNat := normIdx_of_nonneg hy0 hy1
    have hnx : normIdx b.width x = some ((b.width : Int) + x).toNat := normIdx_of_neg hx0 hx1
    refine ⟨setLevel b y.toNat ((b.width : Int) + x).toNat l, ?_, setLevel_self⟩
    unfold applyOp
    rw [hscript, runScript_cons]
    unfold writeCell
    rw [hny, hnx]
    rfl
  · intro b x y l hx0 hx1 hy0 hy1
    have hguard : x < (b.width : Int) ∧ y < (b.height : Int) := ⟨hx1, by omega⟩
    have hscript : opScript b.width b.height (.levelSet x y l) = [(y, x, l)] := by
      show levelSetScript b.width b.height x y l = [(y, x, l)]
      unfold levelSetScript
      rw [if_pos hguard]
    have hny : normIdx b.height y = some ((b.height : Int) + y).toNat := normIdx_of_neg hy0 hy1
    have hnx : normIdx b.width x = some x.toNat := normIdx_of_nonneg hx0 hx1
    refine ⟨setLevel b ((b.height : Int) + y).toNat x.toNat l, ?_, setLevel_self⟩
    unfold applyOp
    rw [hscript, runScript_cons]
    unfold writeCell
    rw [hny, hnx]
    rfl
  · intro b xo y data hx0 hxe hy0 hy1
    have hny : normIdx b.height y = some ((b.height : Int) + y).toNat := normIdx_of_neg hy0 hy1
    obtain ⟨b', hrun, -, -, hset, -⟩ :=
      runScript_levelRowScript (w := b.width) (h := b.height) (b := b) rfl rfl
        hny hx0 hxe
    exact ⟨b', hrun, hset⟩
  · intro b x yo data hx0 hx1 hy0 hye
    have hnx : normIdx b.width x = some ((b.width : Int) + x).toNat := normIdx_of_neg hx0 hx1
    have hguard : x < (b.width : Int) := by omega
    have hslice : pySliceTo data ((b.height : Int) - yo) = data :=
      pySliceTo_of_length_le (by omega)
    have hscript : opScript b.width b.height (.levelCol x yo data) =
        colScriptAux x yo data := by
      show levelColScript b.width b.height x yo data = colScriptAux x yo data
      unfold levelColScript
      rw [if_pos hguard, hslice]
    obtain ⟨b', hrun, -, -, hset, -⟩ := runScript_colAux hnx hy0 hye
    refine ⟨b', ?_, hset⟩
    unfold applyOp
    rw [hscript]
    exact hrun

theorem claim_c10_witness :
    ((-((GridBuffer.init 8 8).width : Int) ≤ -1 ∧ (-1 : Int) < 0 ∧ (0 : Int) ≤ 0 ∧
        (0 : Int) < ((GridBuffer.init 8 8).height : Int)) ∧
      ∃ b', applyOp (GridBuffer.init 8 8) (.levelSet (-1) 0 9) = .ok b' ∧
        b'.levels (0 : Int).toNat (((GridBuffer.init 8 8).width : Int) + -1).toNat = 9) ∧
    ((0 : Int) ≤ 0 ∧ (0 : Int) + ([7, 3] : List Int).length ≤ ((GridBuffer.init 8 8).width : Int) ∧
        -((GridBuffer.init 8 8).height : Int) ≤ -2 ∧ (-2 : Int) < 0) ∧
      ∃ b', applyOp (GridBuffer.init 8 8) (.levelRow 0 (-2) [7, 3]) = .ok b' ∧
        ∀ i, i < ([7, 3] : List Int).length →
          b'.levels (((GridBuffer.init 8 8).height : Int) + -2).toNat ((0 : Int).toNat + i) =
            ([7, 3] : List Int).getD i 0 :=
  ⟨⟨⟨by decide, by decide, by decide, by decide⟩,
    claim_c10.1 (GridBuffer.init 8 8) (-1) 0 9 (by decide) (by decide) (by decide) (by decide)⟩,
   ⟨by decide, by decide, by decide, by decide⟩,
   claim_c10.2.2.1 (GridBuffer.init 8 8) 0 (-2) [7, 3] (by decide) (by decide) (by decide) (by decide)⟩

/-- C5: `switch_page` to a different page (or to "none") synthesizes one
release per pressed coordinate, all addressed to the outgoing page, and
clears the pressed-set; `switch_page` to the already-current page
delivers no key events and leaves the pressed-set unchanged. -/
theorem claim_c5 :
    (∀ (st : PM) (cur : PageId) (t : Int),
      st.current = some cur → st.presses.Nodup →
      (t = -1 ∨ (∃ p, pyGet st.pages t = some p ∧ p ≠ cur)) →
      ∃ st', switchPage st t =
          some (st', st.presses.map (fun q => (cur, q.1, q.2, (0 : Int)))) ∧
        (st.presses.map (fun q => (cur, q.1, q.2, (0 : Int)))).length = st.presses.length ∧
        (∀ d ∈ st.presses.map (fun q => (cur, q.1, q.2, (0 : Int))), d.1 = cur) ∧
        (∀ p, pyGet st.pages t = some p → p ≠ cur →
          ∀ d ∈ st.presses.map (fun q => (cur, q.1, q.2, (0 : Int))), d.1 ≠ p) ∧
        st'.presses = []) ∧
    (∀ (st : PM) (cur : PageId) (t : Int),
      st.current = some cur → t ≠ -1 → pyGet st.pages t = some cur →
      switchPage st t = some (⟨st.pages, some cur, st.presses⟩, [])) := by
  constructor
  · intro st cur t hcur hnd hdiff
    have hrel : sendReleases st.current st.presses =
        some (st.presses.map (fun q => (cur, q.1, q.2, (0 : Int)))) := by
      rw [hcur]
      rfl
    have hdel : ∀ d ∈ st.presses.map (fun q => (cur, q.1, q.2, (0 : Int))), d.1 = cur := by
      intro d hd
      rw [List.mem_map] at hd
      obtain ⟨q, -, rfl⟩ := hd
      rfl
    by_cases ht : t = -1
    · refine ⟨⟨st.pages, none, []⟩, ?_, by simp, hdel,
        fun p _ hne d hd => (hdel d hd).symm ▸ hne.symm, rfl⟩
      unfold switchPage
      rw [if_pos ht, hrel]
      rfl
    · obtain ⟨p, hp, hne⟩ := hdiff.resolve_left ht
      refine ⟨⟨st.pages, some p, []⟩, ?_, by simp, hdel,
        fun p' hp' hne' d hd => (hdel d hd).symm ▸ hne'.symm, rfl⟩
      unfold switchPage
      rw [if_neg ht, hp]
      change (if some p = st.current then _ else _) = _
      rw [if_neg (by rw [hcur]; simpa using hne), hrel]
      rfl
  · intro st cur t hcur ht hp
    unfold switchPage
    rw [if_neg ht, hp]
    change (if some cur = st.current then _ else _) = _
    rw [if_pos (by rw [hcur])]

theorem claim_c5_witness :
    ((⟨[0, 1], some 0, [(2, 3), (4, 5)]⟩ : PM).current = some 0 ∧
      (⟨[0, 1], some 0, [(2, 3), (4, 5)]⟩ : PM).presses.Nodup ∧
      (∃ p, pyGet (⟨[0, 1], some 0, [(2, 3), (4, 5)]⟩ : PM).pages 1 = some p ∧ p ≠ 0) ∧
      ∃ st', switchPage (⟨[0, 1], some 0, [(2, 3), (4, 5)]⟩ : PM) 1 =
          some (st', (⟨[0, 1], some 0, [(2, 3), (4, 5)]⟩ : PM).presses.map
            (fun q => (0, q.1, q.2, (0 : Int)))) ∧
        ((⟨[0, 1], some 0, [(2, 3), (4, 5)]⟩ : PM).presses.map
            (fun q => (0, q.1, q.2, (0 : Int)))).length =
          (⟨[0, 1], some 0, [(2, 3), (4, 5)]⟩ : PM).presses.length ∧
        (∀ d ∈ (⟨[0, 1], some 0, [(2, 3), (4, 5)]⟩ : PM).presses.map
            (fun q => (0, q.1, q.2, (0 : Int))), d.1 = 0) ∧
        (∀ p, pyGet (⟨[0, 1], some 0, [(2, 3), (4, 5)]⟩ : PM).pages 1 = some p → p ≠ 0 →
          ∀ d ∈ (⟨[0, 1], some 0, [(2, 3), (4, 5)]⟩ : PM).presses.map
            (fun q => (0, q.1, q.2, (0 : Int))), d.1 ≠ p) ∧
        st'.presses = []) ∧
    (switchPage (⟨[0, 1], some 0, [(2, 3)]⟩ : PM) 0 =
      some (⟨[0, 1], some 0, [(2, 3)]⟩, [])) :=
  ⟨⟨rfl, by decide, ⟨1, by decide, by decide⟩,
    claim_c5.1 ⟨[0, 1], some 0, [(2, 3), (4, 5)]⟩ 0 1 rfl (by decide)
      (Or.inr ⟨1, by decide, by decide⟩)⟩,
   claim_c5.2 ⟨[0, 1], some 0, [(2, 3)]⟩ 0 0 rfl (by decide) (by decide)⟩

/-! ### C8: splitter routing -/

theorem splitterKeyAux_nil {x y v : Int} {secs : List Section}
    (h : ∀ s ∈ secs, ¬ secContains s x y) :
    ∀ i, splitterKeyAux x y v i secs = [] := by
  induction secs with
  | nil => intro i; rfl
  | cons s rest ih =>
      intro i
      show (if secContains s x y then [(i, x - s.ox, y - s.oy, v)] else []) ++
        splitterKeyAux x y v (i + 1) rest = []
      rw [if_neg (h s (by simp)), List.nil_append]
      exact ih (fun u hu => h u (List.mem_cons_of_mem _ hu)) (i + 1)

theorem splitterKeyAux_unique {secs : List Section} {sec : Section} {x y v : Int}
    (hc : secContains sec x y) :
    ∀ j i, List.Pairwise SecDisjoint secs → secs[j]? = some sec →
      splitterKeyAux x y v i secs = [(i + j, x - sec.ox, y - sec.oy, v)] := by
  induction secs with
  | nil => intro j i _ hj; simp at hj
  | cons s rest ih =>
      intro j i hpw hj
      obtain ⟨hhead, htail⟩ := List.pairwise_cons.mp hpw
      match j with
      | 0 =>
          have hs : s = sec := by simpa using hj
          show (if secContains s x y then [(i, x - s.ox, y - s.oy, v)] else []) ++
            splitterKeyAux x y v (i + 1) rest = _
          rw [hs, if_pos hc]
          rw [splitterKeyAux_nil (fun u hu => fun hcu => hhead u hu x y ⟨hs ▸ hc, hcu⟩) (i + 1)]
          simp
      | Nat.succ j' =>
          have hj' : rest[j']? = some sec := by simpa using hj
          have hmem : sec ∈ rest := by
            have := List.getElem?_eq_some.mp hj'
            obtain ⟨hlt, rfl⟩ := this
            exact List.getElem_mem _
          have hnhead : ¬ secContains s x y := fun hcs => hhead sec hmem x y ⟨hcs, hc⟩
          show (if secContains s x y then [(i, x - s.ox, y - s.oy, v)] else []) ++
            splitterKeyAux x y v (i + 1) rest = _
          rw [if_neg hnhead, List.nil_append]
          rw [ih j' (i + 1) htail hj']
          have harith : i + 1 + j' = i + (j' + 1) := by omega
          rw [harith]

/-- C8: with pairwise non-overlapping sections, a key inside section
`j`'s rectangle is delivered exactly once, to section `j`, at local
coordinates `(dx, dy)`; a key inside no section is delivered nowhere. -/
theorem claim_c8 :
    (∀ (secs : List Section) (j : Nat) (sec : Section) (dx dy v : Int),
      List.Pairwise SecDisjoint secs → secs[j]? = some sec →
      0 ≤ dx → dx < sec.pw → 0 ≤ dy → dy < sec.ph →
      splitterGridKey secs (sec.ox + dx) (sec.oy + dy) v = [(j, dx, dy, v)]) ∧
    (∀ (secs : List Section) (x y v : Int),
      (∀ s ∈ secs, ¬ secContains s x y) → splitterGridKey secs x y v = []) := by
  constructor
  · intro secs j sec dx dy v hpw hj hdx0 hdx1 hdy0 hdy1
    have hc : secContains sec (sec.ox + dx) (sec.oy + dy) := by
      unfold secContains
      refine ⟨by omega, by omega, by omega, by omega⟩
    unfold splitterGridKey
    rw [splitterKeyAux_unique hc j 0 hpw hj]
    have h1 : sec.ox + dx - sec.ox = dx := by omega
    have h2 : sec.oy + dy - sec.oy = dy := by omega
    rw [h1, h2]
    simp
  · intro secs x y v h
    exact splitterKeyAux_nil h 0

theorem claim_c8_witness :
    (List.Pairwise SecDisjoint [⟨4, 4, 0, 0⟩, ⟨4, 4, 4, 4⟩] ∧
      ([⟨4, 4, 0, 0⟩, ⟨4, 4, 4, 4⟩] : List Section)[1]? = some ⟨4, 4, 4, 4⟩ ∧
      (0 : Int) ≤ 1 ∧ (1 : Int) < (Section.mk 4 4 4 4).pw ∧
      (0 : Int) ≤ 2 ∧ (2 : Int) < (Section.mk 4 4 4 4).ph ∧
      splitterGridKey [⟨4, 4, 0, 0⟩, ⟨4, 4, 4, 4⟩]
        ((Section.mk 4 4 4 4).ox + 1) ((Section.mk 4 4 4 4).oy + 2) 1 = [(1, 1, 2, 1)]) ∧
    ((∀ s ∈ ([⟨4, 4, 0, 0⟩, ⟨4, 4, 4, 4⟩] : List Section), ¬ secContains s 9 9) ∧
      splitterGridKey [⟨4, 4, 0, 0⟩, ⟨4, 4, 4, 4⟩] 9 9 1 = []) :=
  have hpw : List.Pairwise SecDisjoint [⟨4, 4, 0, 0⟩, ⟨4, 4, 4, 4⟩] := by
    refine List.pairwise_cons.mpr ⟨?_, by simp⟩
    intro b hb x y hcon
    simp at hb
    subst hb
    simp only [secContains] at hcon
    omega
  have hnone : ∀ s ∈ ([⟨4, 4, 0, 0⟩, ⟨4, 4, 4, 4⟩] : List Section), ¬ secContains s 9 9 := by
    intro s hs
    simp at hs
    rcases hs with rfl | rfl <;> (simp only [secContains]; omega)
  ⟨⟨hpw, by decide, by decide, by decide, by decide, by decide,
    claim_c8.1 [⟨4, 4, 0, 0⟩, ⟨4, 4, 4, 4⟩] 1 ⟨4, 4, 4, 4⟩ 1 2 1 hpw (by decide)
      (by decide) (by decide) (by decide) (by decide)⟩,
   ⟨hnone, claim_c8.2 [⟨4, 4, 0, 0⟩, ⟨4, 4, 4, 4⟩] 9 9 1 hnone⟩⟩

/-! ### C7: sequential page manager -/

theorem pyIndex_lt_length {l : List PageId} {c : PageId} {i : Nat}
    (h : pyIndex l c = some i) : i < l.length := by
  induction l generalizing i with
  | nil => simp [pyIndex] at h
  | cons a t ih =>
      unfold pyIndex at h
      split at h
      · simp at h
        simp [List.length_cons]
        omega
      · rw [Option.map_eq_some'] at h
        obtain ⟨j, hj, rfl⟩ := h
        have := ih hj
        simp [List.length_cons]
        omega

theorem pyIndex_of_getElem {l : List PageId} {c : PageId} {i : Nat}
    (hnd : l.Nodup) (h : l[i]? = some c) : pyIndex l c = some i := by
  induction l generalizing i with
  | nil => simp at h
  | cons a t ih =>
      match i with
      | 0 =>
          simp at h
          subst h
          simp [pyIndex]
      | Nat.succ j =>
          have hj : t[j]? = some c := by simpa using h
          have hmem : c ∈ t := by
            obtain ⟨hlt, rfl⟩ := List.getElem?_eq_some.mp hj
            exact List.getElem_mem _
          have hane : a ≠ c := fun hac => (List.nodup_cons.mp hnd).1 (hac ▸ hmem)
          unfold pyIndex
          rw [if_neg hane, ih (List.nodup_cons.mp hnd).2 hj]
          rfl

/-- C7: the resolved switch button honours negative components as
offsets from the far edge; a press (state 1) on the switch button with
an empty pressed-set advances the current page from index `i` to
`(i + 1) mod P` with no key delivered to any page; a release (state 0)
on the switch button never changes the current page (it is handled as an
ordinary key, which cannot switch pages). -/
theorem claim_c7 :
    (∀ (pages : List PageId) (sb : Int × Int) (w h : Nat) (st : SeqPM),
      seqMk pages sb w h = some st →
      st.sx = (if sb.1 < 0 then (w : Int) + sb.1 else sb.1) ∧
      st.sy = (if sb.2 < 0 then (h : Int) + sb.2 else sb.2)) ∧
    (∀ (st : SeqPM) (cur : PageId) (i : Nat),
      st.base.presses = [] → st.base.current = some cur →
      st.base.pages.Nodup → st.base.pages[i]? = some cur →
      ∃ p, st.base.pages[(i + 1) % st.base.pages.length]? = some p ∧
        seqGridKey st st.sx st.sy 1 =
          some (⟨⟨st.base.pages, some p, []⟩, st.sx, st.sy⟩, [])) ∧
    (∀ (st : SeqPM) (cur : PageId),
      st.base.current = some cur →
      ∃ st' ds, seqGridKey st st.sx st.sy 0 = some (st', ds) ∧
        st'.base.current = st.base.current ∧ st'.base.pages = st.base.pages) := by
  refine ⟨?_, ?_, ?_⟩
  · intro pages sb w h st hmk
    unfold seqMk at hmk
    rw [Option.map_eq_some'] at hmk
    obtain ⟨p0, -, rfl⟩ := hmk
    exact ⟨rfl, rfl⟩
  · intro st cur i hpr hcur hnd hget
    have hidx : pyIndex st.base.pages cur = some i := pyIndex_of_getElem hnd hget
    have hilt : i < st.base.pages.length := pyIndex_lt_length hidx
    have hlen0 : 0 < st.base.pages.length := by omega
    set k : Nat := (i + 1) % st.base.pages.length with hk
    have hklt : k < st.base.pages.length := Nat.mod_lt _ hlen0
    obtain ⟨p, hp⟩ : ∃ p, st.base.pages[k]? = some p :=
      ⟨st.base.pages.get ⟨k, hklt⟩, List.getElem?_eq_some.mpr ⟨hklt, rfl⟩⟩
    refine ⟨p, hp, ?_⟩
    have hswitch : switchPage st.base ((k : Nat) : Int) =
        some (⟨st.base.pages, some p, []⟩, []) := by
      have hpg : pyGet st.base.pages ((k : Nat) : Int) = some p := by
        unfold pyGet
        rw [normIdx_of_nonneg (by positivity) (by exact_mod_cast hklt)]
        simpa using hp
      unfold switchPage
      rw [if_neg (by omega), hpg]
      change (if some p = st.base.current then _ else _) = _
      by_cases hpc : some p = st.base.current
      · rw [if_pos hpc, hpr]
      · rw [if_neg hpc, hcur]
        show Option.map _ (some (st.base.presses.map (fun q => (cur, q.1, q.2, (0 : Int))))) = _
        rw [hpr]
        rfl
    have hcond : st.base.presses = [] ∧ st.sx = st.sx ∧ st.sy = st.sy ∧ (1 : Int) = 1 :=
      ⟨hpr, rfl, rfl, rfl⟩
    unfold seqGridKey
    rw [if_pos hcond, hcur]
    change (match pyIndex st.base.pages cur with
      | none => none
      | some j => Option.map
          (fun (r : PM × List KeyDelivery) => ((⟨r.1, st.sx, st.sy⟩ : SeqPM), r.2))
          (switchPage st.base (((j + 1) % st.base.pages.length : Nat) : Int))) = _
    rw [hidx]
    change Option.map
      (fun (r : PM × List KeyDelivery) => ((⟨r.1, st.sx, st.sy⟩ : SeqPM), r.2))
      (switchPage st.base ((k : Nat) : Int)) = _
    rw [hswitch]
    rfl
  · intro st cur hcur
    refine ⟨⟨⟨st.base.pages, some cur, st.base.presses.erase (st.sx, st.sy)⟩, st.sx, st.sy⟩,
      [(cur, st.sx, st.sy, 0)], ?_, by simpa using hcur.symm, rfl⟩
    have hguard : ¬(st.base.presses = [] ∧ st.sx = st.sx ∧ st.sy = st.sy ∧ (0 : Int) = 1) := by
      intro hcon
      exact absurd hcon.2.2.2 (by norm_num)
    unfold seqGridKey
    rw [if_neg hguard]
    unfold baseGridKey
    rw [hcur]
    simp

theorem claim_c7_witness :
    (seqMk [0, 1, 2] (7, 7) 8 8 = some seqDemo0 ∧
      seqDemo0.sx = (if (7 : Int) < 0 then ((8 : Nat) : Int) + 7 else 7) ∧
      seqDemo0.sy = (if (7 : Int) < 0 then ((8 : Nat) : Int) + 7 else 7)) ∧
    (∃ p, seqDemo0.base.pages[(0 + 1) % seqDemo0.base.pages.length]? = some p ∧
      seqGridKey seqDemo0 seqDemo0.sx seqDemo0.sy 1 =
        some (⟨⟨seqDemo0.base.pages, some p, []⟩, seqDemo0.sx, seqDemo0.sy⟩, [])) ∧
    (seqGridKey seqDemo0 7 7 1 = some (seqDemo1, []) ∧
      seqGridKey seqDemo1 7 7 0 = some (seqDemo1, [(1, 7, 7, 0)]) ∧
      seqGridKey seqDemo1 7 7 1 = some (seqDemo2, []) ∧
      seqGridKey seqDemo2 7 7 1 = some (seqDemo0, [])) :=
  ⟨⟨by decide, (claim_c7.1 [0, 1, 2] (7, 7) 8 8 seqDemo0 (by decide)).1,
    (claim_c7.1 [0, 1, 2] (7, 7) 8 8 seqDemo0 (by decide)).2⟩,
   claim_c7.2.1 seqDemo0 0 0 rfl rfl (by decide) (by decide),
   by decide, by decide, by decide, by decide⟩

/-! ### C6: shadow-buffer consistency -/

/-- C6: every `Page` LED call updates the private shadow buffer the same
way whether or not the page is current, forwards the identical command
list exactly when current, and — the consequence — performing a write
sequence on a non-current page and then switching to it (whose `render`
re-pushes buffer and intensity) leaves the device with the same
intensity and the same level at every in-range cell as performing the
same writes while the page was current (having been rendered when it
became current). -/
theorem claim_c6 (w h : Nat) (hw8 : w % 8 = 0) (hh8 : h % 8 = 0)
    (ops : List LedOp) (d0 : Device)
    (hdw : d0.surf.width = w) (hdh : d0.surf.height = h)
    (hok : Except.isOkB (applyOps (GridBuffer.init w h) ops) = true) :
    ∃ pN : Page,
      pageSteps false (Page.mk0 w h) ops = .ok (pN, []) ∧
      pageSteps true (Page.mk0 w h) ops = .ok (pN, ops) ∧
      ∃ dA dB : Device,
        deviceRun d0 (pageRenderCmds (Page.mk0 w h) ++ ops) = .ok dA ∧
        deviceRun d0 (pageRenderCmds pN) = .ok dB ∧
        dA.intensity = dB.intensity ∧
        (∀ r, r < h → ∀ c, c < w → dA.surf.levels r c = dB.surf.levels r c) := by
  obtain ⟨bN, happ⟩ : ∃ bN, applyOps (GridBuffer.init w h) ops = .ok bN := by
    cases hA : applyOps (GridBuffer.init w h) ops with
    | ok bN => exact ⟨bN, rfl⟩
    | error e =>
        rw [hA] at hok
        exact absurd hok (by simp [Except.isOkB])
  have hbNw : bN.width = w := by
    have hd := @applyOps_dims ops (GridBuffer.init w h)
    rw [happ] at hd
    simpa [resBuf, GridBuffer.init] using hd.1
  have hbNh : bN.height = h := by
    have hd := @applyOps_dims ops (GridBuffer.init w h)
    rw [happ] at hd
    simpa [resBuf, GridBuffer.init] using hd.2
  refine ⟨⟨bN, lastIntensity ops (Page.mk0 w h).intensity⟩, ?_, ?_, ?_⟩
  · simpa using pageSteps_ok (a := false) (p := Page.mk0 w h) happ
  · simpa using pageSteps_ok (a := true) (p := Page.mk0 w h) happ
  · -- route A: render the fresh page, then forward the writes live
    obtain ⟨dr, hdr, hagr, hdrw, hdrh⟩ :=
      render_run (b := (Page.mk0 w h).buffer) (d := d0.surf) hdw hdh hw8 hh8
    have h3 : applyOps d0.surf (pageRenderCmds (Page.mk0 w h)) = .ok dr := by
      unfold pageRenderCmds
      rw [applyOps_append hdr]
      rfl
    obtain ⟨dA', hA', hagA⟩ := applyOps_agree hagr happ
    have hfullA : applyOps d0.surf (pageRenderCmds (Page.mk0 w h) ++ ops) = .ok dA' := by
      rw [applyOps_append h3]
      exact hA'
    have hdevA := deviceRun_of_applyOps (d := d0) hfullA
    have hIA : lastIntensity (pageRenderCmds (Page.mk0 w h) ++ ops) d0.intensity =
        lastIntensity ops (Page.mk0 w h).intensity := by
      rw [lastIntensity_append]
      congr 1
      unfold pageRenderCmds
      rw [lastIntensity_append,
        lastIntensity_of_no_intensity (fun j => renderCmds_no_intensity)]
      rfl
    rw [hIA] at hdevA
    -- route B: write on the non-current page (nothing forwarded), then
    -- switch to it, which renders the final buffer
    obtain ⟨dB', hB', hagB, -, -⟩ :=
      render_run (b := bN) (d := d0.surf)
        (by rw [hdw, hbNw]) (by rw [hdh, hbNh])
        (by rw [hbNw]; exact hw8) (by rw [hbNh]; exact hh8)
    have hfullB : applyOps d0.surf
        (pageRenderCmds ⟨bN, lastIntensity ops (Page.mk0 w h).intensity⟩) = .ok dB' := by
      unfold pageRenderCmds
      rw [applyOps_append hB']
      rfl
    have hdevB := deviceRun_of_applyOps (d := d0) hfullB
    have hIB : lastIntensity
        (pageRenderCmds ⟨bN, lastIntensity ops (Page.mk0 w h).intensity⟩) d0.intensity =
        lastIntensity ops (Page.mk0 w h).intensity := by
      unfold pageRenderCmds
      rw [lastIntensity_append,
        lastIntensity_of_no_intensity (fun j => renderCmds_no_intensity)]
      rfl
    rw [hIB] at hdevB
    refine ⟨⟨dA', lastIntensity ops (Page.mk0 w h).intensity⟩,
      ⟨dB', lastIntensity ops (Page.mk0 w h).intensity⟩, hdevA, hdevB, rfl, ?_⟩
    intro r hr c hc
    rw [← hagA.2.2 r (by rw [hbNh]; exact hr) c (by rw [hbNw]; exact hc)]
    exact hagB.2.2 r (by rw [hbNh]; exact hr) c (by rw [hbNw]; exact hc)

theorem claim_c6_witness :
    ((8 : Nat) % 8 = 0 ∧ (⟨GridBuffer.init 8 8, 0⟩ : Device).surf.width = 8 ∧
      Except.isOkB (applyOps (GridBuffer.init 8 8) [.levelSet 2 3 9, .intensity 7]) = true) ∧
    ∃ pN : Page,
      pageSteps false (Page.mk0 8 8) [.levelSet 2 3 9, .intensity 7] = .ok (pN, []) ∧
      pageSteps true (Page.mk0 8 8) [.levelSet 2 3 9, .intensity 7] =
        .ok (pN, [.levelSet 2 3 9, .intensity 7]) ∧
      ∃ dA dB : Device,
        deviceRun ⟨GridBuffer.init 8 8, 0⟩
          (pageRenderCmds (Page.mk0 8 8) ++ [.levelSet 2 3 9, .intensity 7]) = .ok dA ∧
        deviceRun ⟨GridBuffer.init 8 8, 0⟩ (pageRenderCmds pN) = .ok dB ∧
        dA.intensity = dB.intensity ∧
        (∀ r, r < 8 → ∀ c, c < 8 → dA.surf.levels r c = dB.surf.levels r c) :=
  ⟨⟨rfl, rfl, by decide⟩,
   claim_c6 8 8 rfl rfl [.levelSet 2 3 9, .intensity 7] ⟨GridBuffer.init 8 8, 0⟩
     rfl rfl (by decide)⟩

end Pymonome
